import Mathlib

/-!
# Verification of the streaming grouping engine (go-geographic-autogroup-images)

Shallow embedding of the repository's core: the location matchers, the
time-key aligner, the per-camera group buffers (with smoothing), the
find-groups engine, and the trivial-group reducer.

Modelling conventions:
* Go `time.Time` values are Unix epochs in whole seconds (`Int`).  The Go
  zero `time.Time` (for which `IsZero` is true) is modelled by `none` in
  `GoTime := Option Int`; a real instant `time.Unix(e, 0).UTC()` is `some e`.
  All duration comparisons in the source use fixed windows that are whole
  numbers of seconds, so second granularity is faithful.
* Latitude/longitude are never used arithmetically by the engine - they are
  copied from a matched location record and passed to the nearest-city
  lookup - so they are modelled as opaque `Int` values.
* The nearest-city lookup (external collaborator) is a function
  `Int → Int → Option (String × String)` returning the source name and the
  city id, `none` standing for the no-nearest-city error.
* Diagnostic comment strings attached to records are abstracted to an
  enumerated `Comment` type (the spec states their exact text is not part
  of the contract, only that they are appended).
* Go maps are modelled as association lists updated in place
  (`assocSet`); map iteration order, which Go leaves unspecified, becomes
  list order in the model.
* Go panics (index-out-of-range, log.Panicf) are modelled by `none` in
  `Option`-valued functions.
-/

/-- A Go `time.Time`: `none` is the zero value (`IsZero`), `some e` is the
instant with Unix epoch `e` seconds. -/
abbrev GoTime := Option Int

/-- Diagnostic comments appended to geographic records; texts abstracted. -/
inductive Comment where
  | updatedGeographicFromLocation
  | inheritedTimeKeyOfPreviousRecord
  | leftAdjacentImageDifferentCity
  | smoothedToCity
  | appendedToLargerGroup
  | prependedToLargerGroup
deriving DecidableEq, Repr

/-- `geoindex.GeographicRecord`, restricted to the fields the engine reads
or writes.  The camera model stands in for `Metadata.(ImageMetadata).CameraModel`. -/
structure GeographicRecord where
  filepath : String
  timestamp : Int
  hasGeographic : Bool
  latitude : Int
  longitude : Int
  s2CellId : Nat
  cameraModel : String
  comments : List Comment
deriving DecidableEq, Repr

/-- `GeographicRecord.AddComment`: comments are append-only. -/
def addComment (gr : GeographicRecord) (c : Comment) : GeographicRecord :=
  { gr with comments := gr.comments ++ [c] }

/-- A record with its comments erased: the identity of a record apart from
its append-only diagnostic log. -/
def grCore (gr : GeographicRecord) : GeographicRecord :=
  { gr with comments := [] }

/-- `timeindex.TimeEntry`: a timestamp with the records coalesced at it. -/
structure TimeEntry where
  time : Int
  items : List GeographicRecord
deriving DecidableEq, Repr

/-- `timeindex.SearchTimes`: the insertion position of `t` in the ordered
series, i.e. the first index whose time is `≥ t` (the series length when
all entries are earlier). -/
def searchTimes (ts : List TimeEntry) (t : Int) : Nat :=
  ts.findIdx (fun te => t ≤ te.time)

/-- Go map assignment `m[k] = v` on an association-list model: replaces the
first binding of `k`, or appends a new binding. -/
def assocSet {α β : Type} [DecidableEq α] : List (α × β) → α → β → List (α × β)
  | [], k, v => [(k, v)]
  | (k', v') :: rest, k, v =>
      if k' = k then (k, v) :: rest else (k', v') :: assocSet rest k v

/-- Go map deletion `delete(m, k)`: removes the first binding of `k`. -/
def assocDelete {α β : Type} [DecidableEq α] : List (α × β) → α → List (α × β)
  | [], _ => []
  | (k', v') :: rest, k =>
      if k' = k then rest else (k', v') :: assocDelete rest k

/-- Result of a location matcher call: a matched location entry, the
`ErrNoNearLocationRecord` error, or a panic (wrapped into an error by the
deferred recover and fatal to the caller). -/
inductive MatchResult where
  | found (te : TimeEntry)
  | noNear
  | panicked
deriving DecidableEq, Repr

/-- `TimeKeyAlignment`: grouping alignment factor, in seconds. -/
def TimeKeyAlignment : Int := 60 * 10

/-- `getAlignedEpoch`: `epoch - epoch%TimeKeyAlignment` with Go's `%`
(truncated division remainder, `Int.tmod`). -/
def getAlignedEpoch (epoch : Int) : Int :=
  epoch - epoch.tmod TimeKeyAlignment

/-- `getAlignedTime`: aligns the epoch of a (non-zero) instant and
re-interprets it in UTC; on epochs this is just `getAlignedEpoch`. -/
def getAlignedTime (t : Int) : Int :=
  getAlignedEpoch t

/-- The duration-window selection at the tail of
`findLocationByTimeBestGuess` (lines after the prev/next determination),
with `prev`/`next` `none` when the corresponding local `TimeEntry` variable
is still the Go zero value.  Window: 10 minutes = 600 s. -/
def bestGuessFrom (prev next : Option TimeEntry) (t : Int) : MatchResult :=
  let durationSincePrevious : Int := match prev with
    | some p => t - p.time
    | none => 0
  let durationUntilNext : Int := match next with
    | some n => n.time - t
    | none => 0
  let matched1 : Option TimeEntry :=
    if durationSincePrevious ≠ 0 then
      if durationSincePrevious ≤ 600 ∧ (durationUntilNext = 0 ∨ durationUntilNext > 600) then
        prev
      else if durationSincePrevious ≤ 600 ∧ durationUntilNext ≠ 0 ∧ durationUntilNext ≤ 600 then
        if durationSincePrevious < durationUntilNext then prev else next
      else none
    else none
  let matched2 : Option TimeEntry :=
    if durationUntilNext ≠ 0 ∧ matched1 = none ∧ durationUntilNext < 600 then next
    else matched1
  match matched2 with
  | none => .noNear
  | some te => .found te

/-- `findLocationByTimeBestGuess`: binary-search the location series for the
image timestamp and pick the nearest entry within a 10-minute window. -/
def findLocationByTimeBestGuess (locationTs : List TimeEntry) (t : Int) : MatchResult :=
  let nearestLocationPosition := searchTimes locationTs t
  if hpast : locationTs.length ≤ nearestLocationPosition then
    -- Past the end: prev is the last entry (panic when the series is empty).
    match locationTs.getLast? with
    | none => .panicked
    | some lastTe => bestGuessFrom (some lastTe) none t
  else
    let nearestLocationTe := locationTs.get ⟨nearestLocationPosition, by omega⟩
    if nearestLocationTe.time = t then .found nearestLocationTe
    else
      let previousLocationTe : Option TimeEntry :=
        if h0 : 0 < nearestLocationPosition then
          some (locationTs.get ⟨nearestLocationPosition - 1, by omega⟩)
        else none
      bestGuessFrom previousLocationTe (some nearestLocationTe) t

/-- `findLocationByTimeWithSparseLocations`: carry the last known position
forward, bounded by a 12-hour window (43200 s) only at the series
endpoints. -/
def findLocationByTimeWithSparseLocations (locationTs : List TimeEntry) (t : Int) :
    MatchResult :=
  let nearestLocationPosition := searchTimes locationTs t
  if hpast : locationTs.length ≤ nearestLocationPosition then
    match locationTs.getLast? with
    | none => .panicked
    | some lastTe =>
        if t - lastTe.time ≤ 43200 then .found lastTe else .noNear
  else
    let nearestLocationTe := locationTs.get ⟨nearestLocationPosition, by omega⟩
    if nearestLocationTe.time = t then .found nearestLocationTe
    else if h0 : 0 < nearestLocationPosition then
      .found (locationTs.get ⟨nearestLocationPosition - 1, by omega⟩)
    else if nearestLocationTe.time - t ≤ 43200 then .found nearestLocationTe
    else .noNear

/-! ## Group buffer (`iterative_group_buffers.go`) -/

/-- `bufferedImage`: an image buffered for grouping, carrying its effective
time-key and the nearest-city key attached at push time. -/
structure BufferedImage where
  effectiveTimekey : GoTime
  gr : GeographicRecord
  nearestCityKey : String
deriving DecidableEq, Repr

/-- `bufferedImage.LocationTimekey`: the string
city-key `,` unix-seconds-of-effective-time-key; panics (`none`) when the
effective time-key is the zero value. -/
def locationTimekey (bi : BufferedImage) : Option String :=
  match bi.effectiveTimekey with
  | none => none
  | some e => some (bi.nearestCityKey ++ "," ++ toString e)

/-- `getGeographicRecordTimeKey`: the record's own timestamp, aligned. -/
def getGeographicRecordTimeKey (gr : GeographicRecord) : Int :=
  getAlignedEpoch gr.timestamp

/-- `newBufferedImage`: a zero effective time-key is replaced by the
alignment of the record's own timestamp. -/
def newBufferedImage (nearestCityKey : String) (gr : GeographicRecord)
    (effectiveTimekey : GoTime) : BufferedImage :=
  match effectiveTimekey with
  | none =>
      { effectiveTimekey := some (getGeographicRecordTimeKey gr)
        gr := gr
        nearestCityKey := nearestCityKey }
  | some e =>
      { effectiveTimekey := some e, gr := gr, nearestCityKey := nearestCityKey }

/-- `bufferedGroup`: one camera's ordered buffer with its boundary time-keys
and the location index (map from location-timekey strings to indices). -/
structure BufferedGroup where
  firstTimeKey : GoTime
  lastTimeKey : GoTime
  images : List BufferedImage
  locationIndex : List (String × Nat)
deriving DecidableEq, Repr

/-- `haveCompleteGroup`: panics on an empty buffer, else first ≠ last
time-key. -/
def haveCompleteGroup (bg : BufferedGroup) : Option Bool :=
  match bg.images with
  | [] => none
  | _ :: _ => some (bg.firstTimeKey ≠ bg.lastTimeKey)

/-- `havePartialGroup`: panics on an empty buffer, else first = last
time-key. -/
def havePartialGroup (bg : BufferedGroup) : Option Bool :=
  match bg.images with
  | [] => none
  | _ :: _ => some (bg.firstTimeKey = bg.lastTimeKey)

/-- `bufferedGroup.isEmpty`: no images or a zeroed first time-key. -/
def bgIsEmpty (bg : BufferedGroup) : Bool :=
  bg.images.isEmpty || bg.firstTimeKey = none

/-- The loop of `updateLocationIndex`, carried index first.  Note: the
membership test looks up `bi.nearestCityKey`, while the stored key is the
full location-timekey - this mismatch is in the source. -/
def updateLocationIndexLoop :
    List BufferedImage → Nat → List (String × Nat) → Option (List (String × Nat))
  | [], _, acc => some acc
  | bi :: rest, i, acc =>
      if (acc.lookup bi.nearestCityKey).isSome then
        updateLocationIndexLoop rest (i + 1) acc
      else
        match locationTimekey bi with
        | none => none
        | some ltk => updateLocationIndexLoop rest (i + 1) (assocSet acc ltk i)

/-- `updateLocationIndex`: rebuild the location index from the images. -/
def updateLocationIndex (images : List BufferedImage) : Option (List (String × Nat)) :=
  updateLocationIndexLoop images 0 []

/-- The walk at the top of `popCompleteGroup`: take images from the front
while city and time-key match the first entry's, reproducing the
empty-string / zero-time re-initialisation of its accumulators; returns the
final `firstNearestCityKey` accumulator and the taken images. -/
def popCompleteWalk :
    List BufferedImage → String → GoTime → String × List BufferedImage
  | [], firstCity, _ => (firstCity, [])
  | bi :: rest, firstCity, firstTk =>
      if firstCity ≠ "" ∧ bi.nearestCityKey ≠ firstCity then
        (firstCity, [])
      else
        let firstCity' := if firstCity = "" then bi.nearestCityKey else firstCity
        if firstTk ≠ none ∧ bi.effectiveTimekey ≠ firstTk then
          (firstCity', [])
        else
          let firstTk' := if firstTk = none then bi.effectiveTimekey else firstTk
          let (c, taken) := popCompleteWalk rest firstCity' firstTk'
          (c, bi :: taken)

/-- `popCompleteGroup`: pop the leading run of images sharing the first
entry's city and time-key; panics (`none`) when no complete group exists or
the walk takes nothing. -/
def popCompleteGroup (bg : BufferedGroup) :
    Option (String × List GeographicRecord × BufferedGroup) :=
  match haveCompleteGroup bg with
  | none => none
  | some false => none
  | some true =>
      let (firstNearestCityKey, taken) := popCompleteWalk bg.images "" none
      if taken.length = 0 then none
      else
        let images' := bg.images.drop taken.length
        let firstTimeKey' : GoTime :=
          match images' with
          | [] => none
          | bi :: _ => bi.effectiveTimekey
        match updateLocationIndex images' with
        | none => none
        | some locationIndex' =>
            some (firstNearestCityKey, taken.map (·.gr),
              { firstTimeKey := firstTimeKey'
                lastTimeKey := bg.lastTimeKey
                images := images'
                locationIndex := locationIndex' })

/-- The city accumulator of `popPartialGroup`: the first non-empty
nearest-city key (empty string when none). -/
def firstNonemptyCity : List BufferedImage → String
  | [] => ""
  | bi :: rest => if bi.nearestCityKey = "" then firstNonemptyCity rest else bi.nearestCityKey

/-- `popPartialGroup`: return every remaining record and empty the buffer;
panics (`none`) when a complete group is still present or no partial group
exists. -/
def popPartialGroup (bg : BufferedGroup) :
    Option (String × List GeographicRecord × BufferedGroup) :=
  match haveCompleteGroup bg with
  | none => none
  | some true => none
  | some false =>
      match havePartialGroup bg with
      | none => none
      | some false => none
      | some true =>
          match updateLocationIndex [] with
          | none => none
          | some locationIndex' =>
              some (firstNonemptyCity bg.images, bg.images.map (·.gr),
                { firstTimeKey := none
                  lastTimeKey := none
                  images := []
                  locationIndex := locationIndex' })

/-- The city rewrite applied by the smoothing loop to one image. -/
def smoothCity (nearestCityKey : String) (bi : BufferedImage) : BufferedImage :=
  if bi.nearestCityKey ≠ nearestCityKey then
    { bi with nearestCityKey := nearestCityKey
              gr := addComment bi.gr .smoothedToCity }
  else bi

/-- The smoothing loop over `images[start_index:]`: panics (`none`) when an
image no longer carries the current time-key, otherwise rewrites differing
cities to the pushed city. -/
def smoothLoop (l : List BufferedImage) (nearestCityKey : String) (currentTimekey : GoTime) :
    Option (List BufferedImage) :=
  match l with
  | [] => some []
  | bi :: rest =>
      if bi.effectiveTimekey ≠ currentTimekey then none
      else
        match smoothLoop rest nearestCityKey currentTimekey with
        | none => none
        | some rest' => some (smoothCity nearestCityKey bi :: rest')

/-- The tail of `bufferedGroup.pushImage` after the new buffered image has
been constructed: append it, then either smooth a recurring city/time-key
window or record the new location-timekey. -/
def bgPushAppend (bg : BufferedGroup) (nearestCityKey : String) (bi : BufferedImage) :
    Option BufferedGroup :=
      let images1 := bg.images ++ [bi]
      let currentTimekey := bi.effectiveTimekey
      match locationTimekey bi with
      | none => none
      | some ltk =>
          let len1 := images1.length
          match bg.locationIndex.lookup ltk with
          | some idx =>
              if len1 > 2 then
                match images1.get? idx with
                | none => none
                | some firstEncounteredBi =>
                    if firstEncounteredBi.nearestCityKey ≠ nearestCityKey ∨
                        firstEncounteredBi.effectiveTimekey ≠ currentTimekey then none
                    else
                      match images1.get? (len1 - 2) with
                      | none => none
                      | some previousBi =>
                          if previousBi.nearestCityKey ≠ nearestCityKey ∧
                              previousBi.effectiveTimekey = currentTimekey then
                            match smoothLoop (images1.drop (idx + 1)) nearestCityKey
                                currentTimekey with
                            | none => none
                            | some smoothed =>
                                let images2 := images1.take (idx + 1) ++ smoothed
                                match updateLocationIndex images2 with
                                | none => none
                                | some locationIndex' =>
                                    some { firstTimeKey := bg.firstTimeKey
                                           lastTimeKey := currentTimekey
                                           images := images2
                                           locationIndex := locationIndex' }
                          else
                            some { bg with images := images1, lastTimeKey := currentTimekey }
              else
                some { bg with images := images1, lastTimeKey := currentTimekey }
          | none =>
              some { bg with images := images1
                             lastTimeKey := currentTimekey
                             locationIndex := assocSet bg.locationIndex ltk (len1 - 1) }

/-- `bufferedGroup.pushImage`: build the new buffered image (inheriting the
last time-key on a same-city push, with the matching diagnostic comment)
and run the append/smoothing tail. -/
def bgPushImage (bg : BufferedGroup) (nearestCityKey : String) (gr : GeographicRecord) :
    Option BufferedGroup :=
  match bg.images.getLast? with
  | none => none
  | some lastBi =>
      let inherit := lastBi.nearestCityKey = nearestCityKey
      let effectiveTimekey : GoTime := if inherit then bg.lastTimeKey else none
      let gr1 := addComment gr
        (if inherit then .inheritedTimeKeyOfPreviousRecord else .leftAdjacentImageDifferentCity)
      bgPushAppend bg nearestCityKey (newBufferedImage nearestCityKey gr1 effectiveTimekey)

/-- `initBufferedGroup`: a fresh buffer holding only the initial record;
note that the location index starts empty (the initial image is not
recorded in it). -/
def initBufferedGroup (nearestCityKey : String) (initialGr : GeographicRecord) :
    BufferedGroup :=
  let initialBi := newBufferedImage nearestCityKey initialGr none
  { firstTimeKey := initialBi.effectiveTimekey
    lastTimeKey := initialBi.effectiveTimekey
    images := [initialBi]
    locationIndex := [] }

/-! ## Group buffer pool (`iterativeGroupBuffers`) -/

/-- `iterativeGroupBuffers`: the per-camera buffer pool.  The Go map is an
association list here; Go's unspecified map iteration order becomes list
order (the spec makes cross-camera election order a non-guarantee). -/
structure IterativeGroupBuffers where
  groupsByCameraModel : List (String × BufferedGroup)
deriving DecidableEq, Repr

/-- `newIterativeGroupBuffers`. -/
def newIterativeGroupBuffers : IterativeGroupBuffers := ⟨[]⟩

/-- `haveAnyCompleteGroups`: the first camera model whose buffer reports a
complete group, the empty string when none does (`none` models the panic
raised by probing an empty buffer). -/
def haveAnyCompleteGroups : List (String × BufferedGroup) → Option String
  | [] => some ""
  | (cameraModel, bg) :: rest =>
      match haveCompleteGroup bg with
      | none => none
      | some true => some cameraModel
      | some false => haveAnyCompleteGroups rest

/-- `haveAnyPartialGroups`: the first camera model whose buffer reports a
partial group, the empty string when none does. -/
def haveAnyPartialGroups : List (String × BufferedGroup) → Option String
  | [] => some ""
  | (cameraModel, bg) :: rest =>
      match havePartialGroup bg with
      | none => none
      | some true => some cameraModel
      | some false => haveAnyPartialGroups rest

/-- `popFirstCompleteGroup`: elect a camera with a complete group, pop it,
and drop the buffer when it empties. -/
def popFirstCompleteGroup (igb : IterativeGroupBuffers) :
    Option (GoTime × String × String × List GeographicRecord × IterativeGroupBuffers) :=
  match haveAnyCompleteGroups igb.groupsByCameraModel with
  | none => none
  | some electedCameraModel =>
      if electedCameraModel = "" then none
      else
        match igb.groupsByCameraModel.lookup electedCameraModel with
        | none => none
        | some electedBg =>
            let timeKey := electedBg.firstTimeKey
            match popCompleteGroup electedBg with
            | none => none
            | some (nearestCityKey, images, electedBg') =>
                let groups' :=
                  if bgIsEmpty electedBg' then
                    assocDelete igb.groupsByCameraModel electedCameraModel
                  else
                    assocSet igb.groupsByCameraModel electedCameraModel electedBg'
                some (timeKey, nearestCityKey, electedCameraModel, images, ⟨groups'⟩)

/-- `popFirstPartialGroup`: only legal when no complete group remains; the
elected buffer must be empty afterwards and is removed. -/
def popFirstPartialGroup (igb : IterativeGroupBuffers) :
    Option (GoTime × String × String × List GeographicRecord × IterativeGroupBuffers) :=
  match haveAnyCompleteGroups igb.groupsByCameraModel with
  | none => none
  | some cameraModelWithComplete =>
      if cameraModelWithComplete ≠ "" then none
      else
        match haveAnyPartialGroups igb.groupsByCameraModel with
        | none => none
        | some electedCameraModel =>
            if electedCameraModel = "" then none
            else
              match igb.groupsByCameraModel.lookup electedCameraModel with
              | none => none
              | some electedBg =>
                  let timeKey := electedBg.firstTimeKey
                  match popPartialGroup electedBg with
                  | none => none
                  | some (nearestCityKey, images, electedBg') =>
                      if bgIsEmpty electedBg' = false then none
                      else
                        some (timeKey, nearestCityKey, electedCameraModel, images,
                          ⟨assocDelete igb.groupsByCameraModel electedCameraModel⟩)

/-- `iterativeGroupBuffers.pushImage`: dispatch on the record's camera
model, creating the buffer on first sight of a camera. -/
def igbPushImage (igb : IterativeGroupBuffers) (nearestCityKey : String)
    (gr : GeographicRecord) : Option IterativeGroupBuffers :=
  let cameraModel := gr.cameraModel
  match igb.groupsByCameraModel.lookup cameraModel with
  | some existingGroupBuffer =>
      match bgPushImage existingGroupBuffer nearestCityKey gr with
      | none => none
      | some bg' => some ⟨assocSet igb.groupsByCameraModel cameraModel bg'⟩
  | none =>
      some ⟨igb.groupsByCameraModel ++ [(cameraModel, initBufferedGroup nearestCityKey gr)]⟩

/-! ## Find-groups engine (`find_groups.go`, buffered version) -/

/-- `GroupKey`: the grouping factors attached to an emitted group. -/
structure GroupKey where
  timeKey : GoTime
  nearestCityKey : String
  cameraModel : String
deriving DecidableEq, Repr

/-- `UnassignedRecord`. -/
structure UnassignedRecord where
  geographic : GeographicRecord
  reason : String
deriving DecidableEq, Repr

/-- `SkipReasonNoNearLocationRecord`. -/
def SkipReasonNoNearLocationRecord : String := "no matching/near location record"

/-- `SkipReasonNoNearCity`. -/
def SkipReasonNoNearCity : String := "no near city"

/-- The two location-match strategies. -/
inductive LocationMatchStrategy where
  | bestGuess
  | sparseData
deriving DecidableEq, Repr

/-- `FindGroups`: engine state.  `cityNearest` models the external
`CityIndex.Nearest` collaborator; `nearestCityIndex` keeps the city-key to
city-id association the engine accumulates. -/
structure FindGroups where
  locationTs : List TimeEntry
  imageTs : List TimeEntry
  unassignedRecords : List UnassignedRecord
  currentImagePosition : Nat
  cityNearest : Int → Int → Option (String × String)
  nearestCityIndex : List (String × String)
  locationMatchStrategy : LocationMatchStrategy
  bufferedGroups : IterativeGroupBuffers

/-- `NewFindGroups`: panics (`none`) when the location series is empty. -/
def NewFindGroups (locationTs imageTs : List TimeEntry)
    (cityNearest : Int → Int → Option (String × String)) : Option FindGroups :=
  if locationTs.isEmpty then none
  else
    some { locationTs := locationTs
           imageTs := imageTs
           unassignedRecords := []
           currentImagePosition := 0
           cityNearest := cityNearest
           nearestCityIndex := []
           locationMatchStrategy := .bestGuess
           bufferedGroups := newIterativeGroupBuffers }

/-- The `locationMatcherFn` dispatch. -/
def locationMatcherFn (fg : FindGroups) (t : Int) : MatchResult :=
  match fg.locationMatchStrategy with
  | .bestGuess => findLocationByTimeBestGuess fg.locationTs t
  | .sparseData => findLocationByTimeWithSparseLocations fg.locationTs t

/-- `currentImageRecord`. -/
structure CurrentImageRecord where
  imageUnixTime : Int
  geographicRecord : GeographicRecord
  nearestCityKey : String
deriving DecidableEq, Repr

/-- The per-item body of `getCurrentPositionImages`, folded over the
entry's items: match a location when the record lacks geography, look up
the nearest city, and either skip (recording the reason) or emit a
`currentImageRecord`.  Returns `none` on a panic path. -/
def processItems (fg : FindGroups) (entryTime : Int) :
    List GeographicRecord → List UnassignedRecord → List (String × String) →
    List CurrentImageRecord →
    Option (List CurrentImageRecord × List UnassignedRecord × List (String × String))
  | [], unassigned, cityIdx, out => some (out, unassigned, cityIdx)
  | imageGr :: rest, unassigned, cityIdx, out =>
      let located : Option (Option GeographicRecord) :=
        if imageGr.hasGeographic = false then
          match locationMatcherFn fg entryTime with
          | .noNear => some none            -- skip, recorded as unassigned
          | .panicked => none
          | .found matchedTe =>
              match matchedTe.items.head? with
              | none => none                -- Items[0] on an empty entry panics
              | some locationGr =>
                  if locationGr.hasGeographic = false then none
                  else
                    some (some (addComment
                      { imageGr with latitude := locationGr.latitude
                                     longitude := locationGr.longitude
                                     s2CellId := locationGr.s2CellId }
                      .updatedGeographicFromLocation))
        else some (some imageGr)
      match located with
      | none => none
      | some none =>
          processItems fg entryTime rest
            (unassigned ++ [⟨imageGr, SkipReasonNoNearLocationRecord⟩]) cityIdx out
      | some (some imageGr') =>
          match fg.cityNearest imageGr'.latitude imageGr'.longitude with
          | none =>
              processItems fg entryTime rest
                (unassigned ++ [⟨imageGr', SkipReasonNoNearCity⟩]) cityIdx out
          | some (sourceName, cityId) =>
              let nearestCityKey := sourceName ++ "," ++ cityId
              processItems fg entryTime rest unassigned
                (assocSet cityIdx nearestCityKey cityId)
                (out ++ [⟨entryTime, imageGr', nearestCityKey⟩])

/-- `getCurrentPositionImages`: process the time entry at the cursor,
returning the records to push and the engine state with the accumulated
unassigned records and city index. -/
def getCurrentPositionImages (fg : FindGroups) :
    Option (List CurrentImageRecord × FindGroups) :=
  match fg.imageTs.get? fg.currentImagePosition with
  | none => none
  | some imageTe =>
      match processItems fg imageTe.time imageTe.items fg.unassignedRecords
          fg.nearestCityIndex [] with
      | none => none
      | some (out, unassigned', cityIdx') =>
          some (out, { fg with unassignedRecords := unassigned'
                               nearestCityIndex := cityIdx' })

/-- Push every produced record of one entry into the pool, in order. -/
def pushAll (igb : IterativeGroupBuffers) :
    List CurrentImageRecord → Option IterativeGroupBuffers
  | [] => some igb
  | cir :: rest =>
      match igbPushImage igb cir.nearestCityKey cir.geographicRecord with
      | none => none
      | some igb' => pushAll igb' rest

/-- The ingestion loop of `FindNext` (`for ; pos < len; pos++`): processes
every remaining time entry, with fuel for termination (the caller passes at
least the number of remaining entries). -/
def ingestLoop : Nat → FindGroups → Option FindGroups
  | 0, fg => some fg
  | fuel + 1, fg =>
      if fg.currentImagePosition < fg.imageTs.length then
        match getCurrentPositionImages fg with
        | none => none
        | some (currentImageRecords, fg1) =>
            match pushAll fg1.bufferedGroups currentImageRecords with
            | none => none
            | some igb' =>
                ingestLoop fuel
                  { fg1 with bufferedGroups := igb'
                             currentImagePosition := fg1.currentImagePosition + 1 }
      else some fg

/-- The result of one `FindNext` call. -/
inductive FindNextResult where
  | group (groupKey : GroupKey) (records : List GeographicRecord)
  | noMoreGroups
deriving Repr

/-- `FindNext`: pop a buffered complete group if one exists; otherwise
ingest every remaining time entry, then pop a complete group, then a
partial group, and finally signal `ErrNoMoreGroups`.  `none` models a
panic. -/
def FindNext (fg : FindGroups) : Option (FindNextResult × FindGroups) :=
  match haveAnyCompleteGroups fg.bufferedGroups.groupsByCameraModel with
  | none => none
  | some m =>
      if m ≠ "" then
        match popFirstCompleteGroup fg.bufferedGroups with
        | none => none
        | some (timeKey, nearestCityKey, cameraModel, images, igb') =>
            some (.group ⟨timeKey, nearestCityKey, cameraModel⟩ images,
              { fg with bufferedGroups := igb' })
      else
        match ingestLoop (fg.imageTs.length - fg.currentImagePosition) fg with
        | none => none
        | some fg1 =>
            match haveAnyCompleteGroups fg1.bufferedGroups.groupsByCameraModel with
            | none => none
            | some m2 =>
                if m2 ≠ "" then
                  match popFirstCompleteGroup fg1.bufferedGroups with
                  | none => none
                  | some (timeKey, nearestCityKey, cameraModel, images, igb') =>
                      some (.group ⟨timeKey, nearestCityKey, cameraModel⟩ images,
                        { fg1 with bufferedGroups := igb' })
                else
                  match haveAnyPartialGroups fg1.bufferedGroups.groupsByCameraModel with
                  | none => none
                  | some m3 =>
                      if m3 ≠ "" then
                        match popFirstPartialGroup fg1.bufferedGroups with
                        | none => none
                        | some (timeKey, nearestCityKey, cameraModel, images, igb') =>
                            some (.group ⟨timeKey, nearestCityKey, cameraModel⟩ images,
                              { fg1 with bufferedGroups := igb' })
                      else
                        if fg1.currentImagePosition < fg1.imageTs.length then none
                        else some (.noMoreGroups, fg1)

/-! ## Trivial-group reducer (`groups_reducer.go`) -/

/-- `trivialGroupMaximumSize`. -/
def trivialGroupMaximumSize : Nat := 20

/-- `collectedGroup`. -/
structure CollectedGroup where
  groupKey : GroupKey
  records : List GeographicRecord
deriving Repr

/-- Appending a finished group under a camera model
(`finishedGroups[model] = append(...)` / creation of a fresh slice). -/
def assocAppendGroup (finished : List (String × List CollectedGroup))
    (cameraModel : String) (cg : CollectedGroup) : List (String × List CollectedGroup) :=
  match finished.lookup cameraModel with
  | some finishedModelGroups => assocSet finished cameraModel (finishedModelGroups ++ [cg])
  | none => assocSet finished cameraModel [cg]

/-- One iteration of the `Reduce` loop on one group returned by `FindNext`.
The calendar-day comparison (`Year`/`Month`/`Day` of the two time-keys, a
Go standard-library computation) enters only as a Boolean and is taken as
the parameter `differentDay`. -/
def reduceStep (differentDay : GoTime → GoTime → Bool)
    (finished : List (String × List CollectedGroup))
    (lastGroup : List (String × CollectedGroup)) (merged : Nat)
    (groupKey : GroupKey) (records : List GeographicRecord) :
    List (String × List CollectedGroup) × List (String × CollectedGroup) × Nat :=
  match lastGroup.lookup groupKey.cameraModel with
  | none =>
      (finished, assocSet lastGroup groupKey.cameraModel ⟨groupKey, records⟩, merged)
  | some lastCg =>
      let lastCameraModel := lastCg.groupKey.cameraModel
      let isDifferentDay := differentDay lastCg.groupKey.timeKey groupKey.timeKey
      let lastWasLarge := lastCg.records.length > trivialGroupMaximumSize
      let currentIsLarge := records.length > trivialGroupMaximumSize
      if isDifferentDay || (lastWasLarge && currentIsLarge) then
        (assocAppendGroup finished lastCameraModel lastCg,
         assocSet lastGroup groupKey.cameraModel ⟨groupKey, records⟩, merged)
      else if lastWasLarge then
        (finished,
         assocSet lastGroup groupKey.cameraModel
           ⟨lastCg.groupKey,
            lastCg.records ++ records.map (addComment · .appendedToLargerGroup)⟩,
         merged + 1)
      else
        (finished,
         assocSet lastGroup groupKey.cameraModel
           ⟨groupKey,
            lastCg.records.map (addComment · .prependedToLargerGroup) ++ records⟩,
         merged + 1)

/-- The main loop of `Reduce` over the stream of groups yielded by
`FindNext` (modelled as the input list). -/
def reduceLoop (differentDay : GoTime → GoTime → Bool) :
    List (GroupKey × List GeographicRecord) →
    List (String × List CollectedGroup) → List (String × CollectedGroup) → Nat →
    List (String × List CollectedGroup) × List (String × CollectedGroup) × Nat
  | [], finished, lastGroup, merged => (finished, lastGroup, merged)
  | (groupKey, records) :: rest, finished, lastGroup, merged =>
      let (finished', lastGroup', merged') :=
        reduceStep differentDay finished lastGroup merged groupKey records
      reduceLoop differentDay rest finished' lastGroup' merged'

/-- The end-of-stream flush: every tracked last group becomes finished. -/
def reduceFlush (finished : List (String × List CollectedGroup)) :
    List (String × CollectedGroup) → List (String × List CollectedGroup)
  | [] => finished
  | (cameraModel, lastCg) :: rest => reduceFlush (assocAppendGroup finished cameraModel lastCg) rest

/-- `GroupsReducer.Reduce` over a stream of emitted groups: the finished
groups per camera model and the merge counter. -/
def Reduce (differentDay : GoTime → GoTime → Bool)
    (stream : List (GroupKey × List GeographicRecord)) :
    List (String × List CollectedGroup) × Nat :=
  let (finished, lastGroup, merged) := reduceLoop differentDay stream [] [] 0
  (reduceFlush finished lastGroup, merged)

/-! ## Theorems -/

/-- A concrete location entry for matcher examples: epoch 3600. -/
def exLocA : TimeEntry := ⟨3600, [⟨"a.gpx", 3600, true, 1, 10, 100, "", []⟩]⟩

/-- A concrete location entry for matcher examples: epoch 3660. -/
def exLocB : TimeEntry := ⟨3660, [⟨"b.gpx", 3660, true, 2, 20, 200, "", []⟩]⟩

/-- C7 counterexample: for the pre-epoch timestamp -1 the aligner returns 0,
while floor(-1 / 600) * 600 = -600: on negative unix values the code
truncates toward zero instead of flooring. -/
theorem C7_counterexample :
    getAlignedEpoch (-1) = 0 ∧ Int.fdiv (-1) 600 * 600 = -600 ∧ (0 : Int) ≠ -600 := by
  decide

/-- C7 (amended): the aligner equals floor(epoch/600)*600 on nonnegative
epochs (on negative epochs it truncates toward zero instead); it is a pure
total function of the epoch, and applying it twice equals applying it once
for every integer epoch. -/
theorem C7_alignment :
    (∀ epoch : Int, 0 ≤ epoch → getAlignedEpoch epoch = Int.fdiv epoch 600 * 600)
    ∧ (∀ epoch : Int, getAlignedEpoch (getAlignedEpoch epoch) = getAlignedEpoch epoch)
    ∧ (∀ t : Int, getAlignedTime t = getAlignedEpoch t) := by
  have h600 : TimeKeyAlignment = 600 := by norm_num [TimeKeyAlignment]
  refine ⟨fun epoch h => ?_, fun epoch => ?_, fun t => rfl⟩
  · rw [Int.fdiv_eq_ediv _ (by omega)]
    rw [getAlignedEpoch, h600, Int.tmod_eq_emod h (by omega)]
    omega
  · have h1 : getAlignedEpoch epoch = 600 * epoch.tdiv 600 := by
      have := Int.tmod_add_tdiv epoch 600
      rw [getAlignedEpoch, h600]
      omega
    rw [h1, getAlignedEpoch, h600, Int.mul_tmod_right]
    omega

/-- C7 witness: the amended characterisation evaluated at epochs 3630
and -1. -/
theorem C7_alignment_witness :
    getAlignedEpoch 3630 = Int.fdiv 3630 600 * 600
    ∧ getAlignedEpoch (getAlignedEpoch (-1)) = getAlignedEpoch (-1) :=
  ⟨C7_alignment.1 3630 (by decide), C7_alignment.2.1 (-1)⟩

/-- C1 counterexample: image epoch 3630 with location entries at 3600 and
3660 (dp = dn = 30 s, both within the 10-minute window): the matcher
returns the NEXT entry (3660), not the previous one as the claim's
tie-break states. -/
theorem C1_counterexample :
    findLocationByTimeBestGuess [exLocA, exLocB] 3630 = .found exLocB
    ∧ exLocB ≠ exLocA := by
  decide

/-- C1 (amended): when both the previous entry (0 < dp ≤ 10 min) and the
next entry (0 < dn ≤ 10 min) are within the window, the best-guess matcher
returns the closer of the two, and on a tie (dp = dn) it returns the NEXT
entry (the code takes the previous entry only when dp is strictly
smaller). -/
theorem C1_both_within_window (locationTs : List TimeEntry) (t : Int)
    (prev next : TimeEntry)
    (hprev : locationTs[searchTimes locationTs t - 1]? = some prev)
    (hnext : locationTs[searchTimes locationTs t]? = some next)
    (hpos : 0 < searchTimes locationTs t)
    (hdp0 : 0 < t - prev.time) (hdpW : t - prev.time ≤ 600)
    (hdn0 : 0 < next.time - t) (hdnW : next.time - t ≤ 600) :
    findLocationByTimeBestGuess locationTs t =
      .found (if t - prev.time < next.time - t then prev else next) := by
  have hlt : searchTimes locationTs t < locationTs.length :=
    (List.getElem?_eq_some.mp hnext).1
  have hnext' : locationTs.get ⟨searchTimes locationTs t, hlt⟩ = next := by
    have := (List.getElem?_eq_some.mp hnext).2
    simpa [List.get_eq_getElem] using this
  have hplt : searchTimes locationTs t - 1 < locationTs.length := by omega
  have hprev' : locationTs.get ⟨searchTimes locationTs t - 1, hplt⟩ = prev := by
    have := (List.getElem?_eq_some.mp hprev).2
    simpa [List.get_eq_getElem] using this
  rw [findLocationByTimeBestGuess]
  rw [dif_neg (by omega)]
  rw [hnext']
  rw [if_neg (by omega), dif_pos hpos, hprev']
  simp only [bestGuessFrom]
  rw [if_pos (show t - prev.time ≠ 0 by omega)]
  rw [if_neg (show ¬(t - prev.time ≤ 600 ∧ (next.time - t = 0 ∨ next.time - t > 600)) by
    omega)]
  rw [if_pos (show t - prev.time ≤ 600 ∧ next.time - t ≠ 0 ∧ next.time - t ≤ 600 by
    omega)]
  by_cases hc : t - prev.time < next.time - t
  · rw [if_pos hc, if_pos hc]
    rw [if_neg (show ¬(next.time - t ≠ 0 ∧ some prev = none ∧ next.time - t < 600) by
      simp)]
  · rw [if_neg hc, if_neg hc]
    rw [if_neg (show ¬(next.time - t ≠ 0 ∧ some next = none ∧ next.time - t < 600) by
      simp)]

/-- C1 witness: the amended rule applied at a concrete non-tie input
(image epoch 3610: dp = 10 s, dn = 50 s, previous entry wins). -/
theorem C1_both_within_window_witness :
    findLocationByTimeBestGuess [exLocA, exLocB] 3610 =
      .found (if (3610 : Int) - exLocA.time < exLocB.time - 3610 then exLocA else exLocB) :=
  C1_both_within_window [exLocA, exLocB] 3610 exLocA exLocB
    (by decide) (by decide) (by decide) (by decide) (by decide) (by decide) (by decide)

/-- C8: characterisation of the sparse-data matcher (W = 12 h = 43200 s):
past-the-end positions return the last entry iff the image is within W of
it; an exact-time hit returns that entry; otherwise any existing previous
entry is returned unconditionally; otherwise the next entry is returned iff
it is within W of the image. -/
theorem C8_sparse_characterization (locationTs : List TimeEntry) (t : Int) :
    (∀ lastTe, locationTs.getLast? = some lastTe →
        locationTs.length ≤ searchTimes locationTs t →
        findLocationByTimeWithSparseLocations locationTs t =
          (if t - lastTe.time ≤ 43200 then .found lastTe else .noNear))
    ∧ (∀ next, locationTs[searchTimes locationTs t]? = some next →
        next.time = t →
        findLocationByTimeWithSparseLocations locationTs t = .found next)
    ∧ (∀ next prev, locationTs[searchTimes locationTs t]? = some next →
        next.time ≠ t →
        0 < searchTimes locationTs t →
        locationTs[searchTimes locationTs t - 1]? = some prev →
        findLocationByTimeWithSparseLocations locationTs t = .found prev)
    ∧ (∀ next, locationTs[searchTimes locationTs t]? = some next →
        next.time ≠ t →
        searchTimes locationTs t = 0 →
        findLocationByTimeWithSparseLocations locationTs t =
          (if next.time - t ≤ 43200 then .found next else .noNear)) := by
  refine ⟨fun lastTe hlast hpast => ?_, fun next hnext heq => ?_,
    fun next prev hnext hne hpos hprev => ?_, fun next hnext hne hzero => ?_⟩
  · rw [findLocationByTimeWithSparseLocations, dif_pos hpast, hlast]
  · have hlt : searchTimes locationTs t < locationTs.length :=
      (List.getElem?_eq_some.mp hnext).1
    have hnext' : locationTs.get ⟨searchTimes locationTs t, hlt⟩ = next := by
      simpa [List.get_eq_getElem] using (List.getElem?_eq_some.mp hnext).2
    rw [findLocationByTimeWithSparseLocations, dif_neg (by omega), hnext', if_pos heq]
  · have hlt : searchTimes locationTs t < locationTs.length :=
      (List.getElem?_eq_some.mp hnext).1
    have hnext' : locationTs.get ⟨searchTimes locationTs t, hlt⟩ = next := by
      simpa [List.get_eq_getElem] using (List.getElem?_eq_some.mp hnext).2
    have hplt : searchTimes locationTs t - 1 < locationTs.length := by omega
    have hprev' : locationTs.get ⟨searchTimes locationTs t - 1, hplt⟩ = prev := by
      simpa [List.get_eq_getElem] using (List.getElem?_eq_some.mp hprev).2
    rw [findLocationByTimeWithSparseLocations, dif_neg (by omega), hnext',
      if_neg hne, dif_pos hpos, hprev']
  · have hlt : searchTimes locationTs t < locationTs.length :=
      (List.getElem?_eq_some.mp hnext).1
    have hnext' : locationTs.get ⟨searchTimes locationTs t, hlt⟩ = next := by
      simpa [List.get_eq_getElem] using (List.getElem?_eq_some.mp hnext).2
    rw [findLocationByTimeWithSparseLocations, dif_neg (by omega), hnext',
      if_neg hne, dif_neg (by omega)]

/-- C8 witness: the characterisation applied to the two-entry series at a
past-the-end image timestamp within the window (epoch 4000). -/
theorem C8_sparse_witness :
    findLocationByTimeWithSparseLocations [exLocA, exLocB] 4000 =
      (if (4000 : Int) - exLocB.time ≤ 43200 then .found exLocB else .noNear) :=
  (C8_sparse_characterization [exLocA, exLocB] 4000).1 exLocB (by decide) (by decide)

/-- A concrete image record used in the buffer examples. -/
def exGr (fp : String) (ts : Int) : GeographicRecord :=
  ⟨fp, ts, true, 7, 8, 9, "m", []⟩

/-- The C2 failing buffer: a complete group (city X,1 at time-key 0)
followed by two images of city Y,2 in the same time-key 600. -/
def C2buffer : BufferedGroup :=
  { firstTimeKey := some 0
    lastTimeKey := some 600
    images := [⟨some 0, exGr "a.jpg" 10, "X,1"⟩,
               ⟨some 600, exGr "b.jpg" 610, "Y,2"⟩,
               ⟨some 600, exGr "c.jpg" 620, "Y,2"⟩]
    locationIndex := [("X,1,0", 0), ("Y,2,600", 1)] }

/-- C2 (code bug): popping the complete group rebuilds the location index
over the remaining images [Y,2 at 600, Y,2 at 600], and the rebuilt index
maps the key to 1 - the LAST occurrence - although the image at index 0
already carries that city and time-key.  The membership test in
`updateLocationIndex` looks up the bare city key while the stored keys are
full location-timekeys, so it never fires and later duplicates overwrite
the first index, contradicting the field's documented first-occurrence
meaning. -/
theorem C2_code_bug_eval :
    (popCompleteGroup C2buffer).map (fun r =>
      (r.1, r.2.1.map (·.filepath),
       r.2.2.images.map (fun bi => (bi.nearestCityKey, bi.effectiveTimekey)),
       r.2.2.locationIndex)) =
      some ("X,1", ["a.jpg"],
        [("Y,2", some 600), ("Y,2", some 600)], [("Y,2,600", 1)])
    ∧ (some 1 : Option Nat) ≠ some 0 :=
  ⟨rfl, by decide⟩

/-- Records for the C3 scenario-E pushes (single camera, all three
timestamps aligning to time-key 0). -/
def C3grA : GeographicRecord := exGr "a.jpg" 10
/-- Second record of the C3 scenario. -/
def C3grB : GeographicRecord := exGr "b.jpg" 20
/-- Third record of the C3 scenario. -/
def C3grC : GeographicRecord := exGr "c.jpg" 30

/-- The C3 initial buffer: city X,1 with the first record. -/
def C3buf0 : BufferedGroup := initBufferedGroup "X,1" C3grA

/-- C3 (code bug): pushing cities X,1 / Y,1 / X,1 all in time-key 0 leaves
the buffered cities as [X,1, Y,1, X,1] (no smoothing fires) and the
location index maps "X,1,0" to 2, not 0: `initBufferedGroup` never records
the initial image in the location index, so the recurrence of city X,1 in
the same time-key is not detected. -/
theorem C3_code_bug_eval :
    ((bgPushImage C3buf0 "Y,1" C3grB).bind
        (fun b1 => bgPushImage b1 "X,1" C3grC)).map
      (fun b2 => (b2.images.map (·.nearestCityKey), b2.locationIndex.lookup "X,1,0")) =
      some (["X,1", "Y,1", "X,1"], some 2)
    ∧ ["X,1", "Y,1", "X,1"] ≠ ["X,1", "X,1", "X,1"]
    ∧ (some 2 : Option Nat) ≠ some 0 :=
  ⟨rfl, by decide, by decide⟩

/-! ### C6: the reducer preserves the total record count -/

/-- Sum of the value sizes of an association list, for a given size
function. -/
def sumBy {α β : Type} (f : β → Nat) (l : List (α × β)) : Nat :=
  (l.map (fun p => f p.2)).sum

/-- Total records held in the finished-groups map. -/
def finishedSizes (finished : List (String × List CollectedGroup)) : Nat :=
  sumBy (fun gs => (gs.map (fun cg => cg.records.length)).sum) finished

/-- Total records held in the tracked last groups. -/
def lastSizes (lastGroup : List (String × CollectedGroup)) : Nat :=
  sumBy (fun cg => cg.records.length) lastGroup

theorem sumBy_assocSet_of_lookup_some {α β : Type} [DecidableEq α] [BEq α] [LawfulBEq α]
    (f : β → Nat) (l : List (α × β)) (k : α) (v old : β)
    (h : l.lookup k = some old) :
    sumBy f (assocSet l k v) + f old = sumBy f l + f v := by
  induction l with
  | nil => simp [List.lookup] at h
  | cons p rest ih =>
      obtain ⟨k', v'⟩ := p
      by_cases hk : k' = k
      · subst hk
        simp [List.lookup] at h
        subst h
        simp [assocSet, sumBy]
        omega
      · have hkq : (k == k') = false := beq_eq_false_iff_ne.mpr (fun hh => hk hh.symm)
        simp only [List.lookup, hkq] at h
        have ih' := ih h
        simp only [assocSet, if_neg hk, sumBy, List.map_cons, List.sum_cons] at ih' ⊢
        omega

theorem sumBy_assocSet_of_lookup_none {α β : Type} [DecidableEq α] [BEq α] [LawfulBEq α]
    (f : β → Nat) (l : List (α × β)) (k : α) (v : β)
    (h : l.lookup k = none) :
    sumBy f (assocSet l k v) = sumBy f l + f v := by
  induction l with
  | nil => simp [assocSet, sumBy]
  | cons p rest ih =>
      obtain ⟨k', v'⟩ := p
      by_cases hk : k' = k
      · subst hk
        simp [List.lookup] at h
      · have hkq : (k == k') = false := beq_eq_false_iff_ne.mpr (fun hh => hk hh.symm)
        simp only [List.lookup, hkq] at h
        have ih' := ih h
        simp only [assocSet, if_neg hk, sumBy, List.map_cons, List.sum_cons] at ih' ⊢
        omega

theorem finishedSizes_assocAppendGroup (finished : List (String × List CollectedGroup))
    (cameraModel : String) (cg : CollectedGroup) :
    finishedSizes (assocAppendGroup finished cameraModel cg) =
      finishedSizes finished + cg.records.length := by
  rw [assocAppendGroup]
  cases h : finished.lookup cameraModel with
  | none =>
      have := sumBy_assocSet_of_lookup_none
        (fun gs => (gs.map (fun cg => cg.records.length)).sum) finished cameraModel [cg] h
      simpa [finishedSizes] using this
  | some groups =>
      have := sumBy_assocSet_of_lookup_some
        (fun gs => (gs.map (fun cg => cg.records.length)).sum) finished cameraModel
        (groups ++ [cg]) groups h
      simp only [List.map_append, List.sum_append, List.map_cons, List.sum_cons,
        List.map_nil, List.sum_nil] at this
      simp only [finishedSizes]
      omega

theorem reduceStep_sum (differentDay : GoTime → GoTime → Bool)
    (finished : List (String × List CollectedGroup))
    (lastGroup : List (String × CollectedGroup)) (merged : Nat)
    (groupKey : GroupKey) (records : List GeographicRecord) :
    finishedSizes (reduceStep differentDay finished lastGroup merged groupKey records).1
      + lastSizes (reduceStep differentDay finished lastGroup merged groupKey records).2.1
      = finishedSizes finished + lastSizes lastGroup + records.length := by
  rw [reduceStep]
  cases h : lastGroup.lookup groupKey.cameraModel with
  | none =>
      have := sumBy_assocSet_of_lookup_none
        (fun cg : CollectedGroup => cg.records.length) lastGroup groupKey.cameraModel
        ⟨groupKey, records⟩ h
      simp only [lastSizes]
      simp only [lastSizes] at this
      simp [this]
      omega
  | some lastCg =>
      simp only
      split_ifs with h1 h2
      · have hfin := finishedSizes_assocAppendGroup finished lastCg.groupKey.cameraModel lastCg
        have hlast := sumBy_assocSet_of_lookup_some
          (fun cg : CollectedGroup => cg.records.length) lastGroup groupKey.cameraModel
          ⟨groupKey, records⟩ lastCg h
        simp only [finishedSizes, lastSizes] at hfin hlast ⊢
        omega
      · have hlast := sumBy_assocSet_of_lookup_some
          (fun cg : CollectedGroup => cg.records.length) lastGroup groupKey.cameraModel
          ⟨lastCg.groupKey,
            lastCg.records ++ records.map (addComment · .appendedToLargerGroup)⟩ lastCg h
        simp only [List.length_append, List.length_map] at hlast
        simp only [finishedSizes, lastSizes] at hlast ⊢
        omega
      · have hlast := sumBy_assocSet_of_lookup_some
          (fun cg : CollectedGroup => cg.records.length) lastGroup groupKey.cameraModel
          ⟨groupKey,
            lastCg.records.map (addComment · .prependedToLargerGroup) ++ records⟩ lastCg h
        simp only [List.length_append, List.length_map] at hlast
        simp only [finishedSizes, lastSizes] at hlast ⊢
        omega

theorem reduceLoop_sum (differentDay : GoTime → GoTime → Bool)
    (stream : List (GroupKey × List GeographicRecord)) :
    ∀ (finished : List (String × List CollectedGroup))
      (lastGroup : List (String × CollectedGroup)) (merged : Nat),
    finishedSizes (reduceLoop differentDay stream finished lastGroup merged).1
      + lastSizes (reduceLoop differentDay stream finished lastGroup merged).2.1
      = finishedSizes finished + lastSizes lastGroup
        + (stream.map (fun p => p.2.length)).sum := by
  induction stream with
  | nil => intro finished lastGroup merged; simp [reduceLoop]
  | cons p rest ih =>
      intro finished lastGroup merged
      obtain ⟨groupKey, records⟩ := p
      have hstep := reduceStep_sum differentDay finished lastGroup merged groupKey records
      rcases hs : reduceStep differentDay finished lastGroup merged groupKey records
        with ⟨f1, l1, m1⟩
      rw [hs] at hstep
      dsimp only at hstep
      have ihx := ih f1 l1 m1
      rw [reduceLoop]
      simp only [hs, List.map_cons, List.sum_cons]
      omega

theorem reduceFlush_sum :
    ∀ (lastGroup : List (String × CollectedGroup))
      (finished : List (String × List CollectedGroup)),
    finishedSizes (reduceFlush finished lastGroup) =
      finishedSizes finished + lastSizes lastGroup := by
  intro lastGroup
  induction lastGroup with
  | nil => intro finished; simp [reduceFlush, lastSizes, sumBy]
  | cons p rest ih =>
      intro finished
      obtain ⟨cameraModel, lastCg⟩ := p
      rw [reduceFlush]
      rw [ih]
      rw [finishedSizes_assocAppendGroup]
      simp only [lastSizes, sumBy, List.map_cons, List.sum_cons]
      omega

/-- C6: for every run of the reducer over a stream of groups yielded by
`FindNext` (and every calendar-day predicate), the total number of records
in the finished groups after the end-of-stream flush equals the total
number of records in the input groups: merging neither drops nor
duplicates a record. -/
theorem C6_reducer_preserves_count (differentDay : GoTime → GoTime → Bool)
    (stream : List (GroupKey × List GeographicRecord)) :
    finishedSizes (Reduce differentDay stream).1 =
      (stream.map (fun p => p.2.length)).sum := by
  have hloop := reduceLoop_sum differentDay stream [] [] 0
  rcases hl : reduceLoop differentDay stream [] [] 0 with ⟨fin, last, m⟩
  rw [hl] at hloop
  dsimp only at hloop
  have hflush := reduceFlush_sum last fin
  have hnil1 : finishedSizes [] = 0 := rfl
  have hnil2 : lastSizes [] = 0 := rfl
  rw [Reduce]
  simp only [hl]
  omega

/-! ### C9: pushImage is a frame-preserving append plus city smoothing -/

theorem newBufferedImage_nearestCityKey (c : String) (g : GeographicRecord) (e : GoTime) :
    (newBufferedImage c g e).nearestCityKey = c := by
  cases e <;> rfl

theorem newBufferedImage_gr (c : String) (g : GeographicRecord) (e : GoTime) :
    (newBufferedImage c g e).gr = g := by
  cases e <;> rfl

theorem grCore_addComment (g : GeographicRecord) (c : Comment) :
    grCore (addComment g c) = grCore g := rfl

theorem smoothCity_self (city : String) (bi : BufferedImage)
    (h : bi.nearestCityKey = city) : smoothCity city bi = bi := by
  simp [smoothCity, h]

theorem smoothLoop_eq_map (l : List BufferedImage) (city : String) (tk : GoTime)
    (l' : List BufferedImage) (h : smoothLoop l city tk = some l') :
    l' = l.map (smoothCity city) := by
  induction l generalizing l' with
  | nil =>
      rw [smoothLoop] at h
      obtain rfl := Option.some.inj h
      rfl
  | cons bi rest ih =>
      rw [smoothLoop] at h
      split at h
      · exact Option.noConfusion h
      · split at h
        · exact Option.noConfusion h
        next rest' hrest =>
          obtain rfl := Option.some.inj h
          rw [List.map_cons, ih rest' hrest]

theorem take_smooth_append (old : List BufferedImage) (bi : BufferedImage) (city : String)
    (hbc : bi.nearestCityKey = city) (idx : Nat) :
    (old ++ [bi]).take (idx + 1) ++ ((old ++ [bi]).drop (idx + 1)).map (smoothCity city)
      = (old.take (idx + 1) ++ (old.drop (idx + 1)).map (smoothCity city)) ++ [bi] := by
  by_cases hle : idx + 1 ≤ old.length
  · rw [List.take_append_of_le_length hle, List.drop_append_of_le_length hle]
    rw [List.map_append]
    simp [smoothCity_self city bi hbc]
  · have h1 : old.length ≤ idx + 1 := by omega
    have h2 : (old ++ [bi]).length ≤ idx + 1 := by
      simp only [List.length_append, List.length_cons, List.length_nil]
      omega
    rw [List.take_of_length_le h2, List.drop_of_length_le h2]
    rw [List.take_of_length_le h1, List.drop_of_length_le h1]
    simp

theorem bgPushAppend_decomp (bg : BufferedGroup) (city : String) (bi : BufferedImage)
    (hbc : bi.nearestCityKey = city) (bg' : BufferedGroup)
    (h : bgPushAppend bg city bi = some bg') :
    bg'.images = bg.images ++ [bi] ∨
      ∃ idx, (locationTimekey bi).bind (fun ltk => bg.locationIndex.lookup ltk) = some idx
        ∧ idx ≤ bg.images.length
        ∧ bg'.images =
            (bg.images.take (idx + 1) ++ (bg.images.drop (idx + 1)).map (smoothCity city))
              ++ [bi] := by
  rw [bgPushAppend] at h
  dsimp only at h
  split at h
  · exact Option.noConfusion h
  next ltk hltk =>
    split at h
    next idx hidx =>
      split at h
      next hlen =>
        split at h
        · exact Option.noConfusion h
        next firstBi hget =>
          split at h
          · exact Option.noConfusion h
          next hsan =>
            split at h
            · exact Option.noConfusion h
            next previousBi hprevBi =>
              split at h
              next hcond =>
                split at h
                · exact Option.noConfusion h
                next smoothed hsm =>
                  split at h
                  · exact Option.noConfusion h
                  next li2 hupd =>
                    obtain rfl := Option.some.inj h
                    right
                    refine ⟨idx, ?_, ?_, ?_⟩
                    · rw [hltk]
                      simpa using hidx
                    · have hidxlt : idx < (bg.images ++ [bi]).length := by
                        rcases List.get?_eq_some.mp hget with ⟨hw, _⟩
                        exact hw
                      simp only [List.length_append, List.length_cons,
                        List.length_nil] at hidxlt
                      omega
                    · have hsm2 := smoothLoop_eq_map _ _ _ _ hsm
                      subst hsm2
                      exact take_smooth_append bg.images bi city hbc idx
              next hcond =>
                obtain rfl := Option.some.inj h
                left
                rfl
      next hlen =>
        obtain rfl := Option.some.inj h
        left
        rfl
    next hidx =>
      obtain rfl := Option.some.inj h
      left
      rfl

/-- C9: a push on a non-empty buffer always appends the new image at the
back; the entries already buffered keep their count, order, effective
time-keys and referenced records (up to appended diagnostic comments), and
only entries strictly between the smoothing anchor index and the pushed
entry can have their nearest-city key rewritten (to the pushed city, via
the `smoothCity` rewrite, which touches nothing but the city field and the
record's comment log). -/
theorem C9_pushImage_frame (bg : BufferedGroup) (city : String) (gr : GeographicRecord)
    (bg' : BufferedGroup) (h : bgPushImage bg city gr = some bg') :
    ∃ (newBi : BufferedImage) (pre : List BufferedImage),
      bg'.images = pre ++ [newBi]
      ∧ pre.length = bg.images.length
      ∧ newBi.nearestCityKey = city
      ∧ grCore newBi.gr = grCore gr
      ∧ (∃ extra, newBi.gr.comments = gr.comments ++ extra)
      ∧ ∀ (k : Nat) (hk : k < bg.images.length) (hk2 : k < pre.length),
          pre.get ⟨k, hk2⟩ = bg.images.get ⟨k, hk⟩
          ∨ ((bg.images.get ⟨k, hk⟩).nearestCityKey ≠ city
             ∧ pre.get ⟨k, hk2⟩ = smoothCity city (bg.images.get ⟨k, hk⟩)
             ∧ ∃ idx, (locationTimekey newBi).bind
                 (fun ltk => bg.locationIndex.lookup ltk) = some idx ∧ idx < k) := by
  rw [bgPushImage] at h
  rcases hlast : bg.images.getLast? with _ | lastBi
  · rw [hlast] at h
    exact Option.noConfusion h
  · rw [hlast] at h
    dsimp only at h
    have hdec := bgPushAppend_decomp bg city _
      (newBufferedImage_nearestCityKey city _ _) bg' h
    rcases hdec with heq | ⟨idx, hbind, hle, heq⟩
    · refine ⟨_, bg.images, heq, rfl,
        newBufferedImage_nearestCityKey city _ _, ?_, ?_, ?_⟩
      · rw [newBufferedImage_gr, grCore_addComment]
      · rw [newBufferedImage_gr]
        exact ⟨_, rfl⟩
      · intro k hk hk2
        left
        rfl
    · refine ⟨_, bg.images.take (idx + 1)
          ++ (bg.images.drop (idx + 1)).map (smoothCity city), heq, ?_,
        newBufferedImage_nearestCityKey city _ _, ?_, ?_, ?_⟩
      · simp only [List.length_append, List.length_take, List.length_map,
          List.length_drop, Nat.min_def]
        split <;> omega
      · rw [newBufferedImage_gr, grCore_addComment]
      · rw [newBufferedImage_gr]
        exact ⟨_, rfl⟩
      · intro k hk hk2
        by_cases hki : k < idx + 1
        · left
          have hlt : k < (bg.images.take (idx + 1)).length := by
            simp only [List.length_take, Nat.min_def]
            split <;> omega
          rw [List.get_eq_getElem, List.get_eq_getElem,
            List.getElem_append_left hlt]
          simp
        · have hlen1 : (bg.images.take (idx + 1)).length = idx + 1 := by
            simp only [List.length_take, Nat.min_def]
            split <;> omega
          have hge : (bg.images.take (idx + 1)).length ≤ k := by omega
          have hk3 : k - (idx + 1) < ((bg.images.drop (idx + 1)).map
              (smoothCity city)).length := by
            simp only [List.length_map, List.length_drop]
            omega
          have hgetk : (bg.images.take (idx + 1)
              ++ (bg.images.drop (idx + 1)).map (smoothCity city)).get ⟨k, hk2⟩
              = smoothCity city (bg.images.get ⟨k, hk⟩) := by
            rw [List.get_eq_getElem, List.getElem_append_right hge]
            rw [List.getElem_map]
            rw [List.getElem_drop]
            rw [List.get_eq_getElem]
            congr 1
            exact getElem_congr (by rw [hlen1]; dsimp only; omega)
          by_cases hcity : (bg.images.get ⟨k, hk⟩).nearestCityKey = city
          · left
            rw [hgetk, smoothCity_self city _ hcity]
          · right
            exact ⟨hcity, hgetk, idx, hbind, by omega⟩

/-- A one-image buffer used to witness the push frame property. -/
def C9exBg : BufferedGroup :=
  { firstTimeKey := some 0
    lastTimeKey := some 0
    images := [⟨some 0, exGr "a.jpg" 10, "A,1"⟩]
    locationIndex := [] }

/-- The record pushed in the C9 witness. -/
def C9exGr : GeographicRecord := exGr "b.jpg" 20

/-- The buffer state after the C9 witness push (computed). -/
def C9exBg' : BufferedGroup :=
  { firstTimeKey := some 0
    lastTimeKey := some 0
    images := [⟨some 0, exGr "a.jpg" 10, "A,1"⟩,
               ⟨some 0, ⟨"b.jpg", 20, true, 7, 8, 9, "m",
                 [.leftAdjacentImageDifferentCity]⟩, "B,2"⟩]
    locationIndex := [("B,2,0", 1)] }

/-- C9 witness: the frame property applied to a concrete push. -/
theorem C9_pushImage_frame_witness :
    ∃ (newBi : BufferedImage) (pre : List BufferedImage),
      C9exBg'.images = pre ++ [newBi]
      ∧ pre.length = C9exBg.images.length
      ∧ newBi.nearestCityKey = "B,2"
      ∧ grCore newBi.gr = grCore C9exGr
      ∧ (∃ extra, newBi.gr.comments = C9exGr.comments ++ extra)
      ∧ ∀ (k : Nat) (hk : k < C9exBg.images.length) (hk2 : k < pre.length),
          pre.get ⟨k, hk2⟩ = C9exBg.images.get ⟨k, hk⟩
          ∨ ((C9exBg.images.get ⟨k, hk⟩).nearestCityKey ≠ "B,2"
             ∧ pre.get ⟨k, hk2⟩ = smoothCity "B,2" (C9exBg.images.get ⟨k, hk⟩)
             ∧ ∃ idx, (locationTimekey newBi).bind
                 (fun ltk => C9exBg.locationIndex.lookup ltk) = some idx ∧ idx < k) :=
  C9_pushImage_frame C9exBg "B,2" C9exGr C9exBg' rfl

/-! ### C10: no-more-groups behaviour of the engine -/

theorem FindNext_noMore_inv (fg fg' : FindGroups)
    (h : FindNext fg = some (.noMoreGroups, fg')) :
    haveAnyCompleteGroups fg'.bufferedGroups.groupsByCameraModel = some ""
    ∧ haveAnyPartialGroups fg'.bufferedGroups.groupsByCameraModel = some ""
    ∧ fg'.imageTs.length ≤ fg'.currentImagePosition := by
  rw [FindNext] at h
  split at h
  · exact Option.noConfusion h
  next m hm =>
    split at h
    · split at h
      · exact Option.noConfusion h
      · have h2 := Option.some.inj h
        exact FindNextResult.noConfusion (congrArg Prod.fst h2)
    next hmne =>
      split at h
      · exact Option.noConfusion h
      next fg1 hingest =>
        split at h
        · exact Option.noConfusion h
        next m2 hm2 =>
          split at h
          · split at h
            · exact Option.noConfusion h
            · have h2 := Option.some.inj h
              exact FindNextResult.noConfusion (congrArg Prod.fst h2)
          next hm2e =>
            split at h
            · exact Option.noConfusion h
            next m3 hm3 =>
              split at h
              · split at h
                · exact Option.noConfusion h
                · have h2 := Option.some.inj h
                  exact FindNextResult.noConfusion (congrArg Prod.fst h2)
              next hm3e =>
                split at h
                · exact Option.noConfusion h
                next hpos =>
                  have h2 := Option.some.inj h
                  have hfg : fg1 = fg' := congrArg Prod.snd h2
                  subst hfg
                  have hm2z : m2 = "" := by
                    by_contra hc
                    exact hm2e hc
                  have hm3z : m3 = "" := by
                    by_contra hc
                    exact hm3e hc
                  subst hm2z
                  subst hm3z
                  exact ⟨hm2, hm3, by omega⟩

/-- C10: an engine constructed over an empty image series (with the
required non-empty location series) reports no-more-groups on the first
call, with its state unchanged; and whenever a call reports
no-more-groups, every later call reports it again with the state unchanged
(the returned state is a fixed point of `FindNext`). -/
theorem C10_no_more_groups :
    (∀ (locationTs : List TimeEntry)
        (cityNearest : Int → Int → Option (String × String)) (fg : FindGroups),
        NewFindGroups locationTs [] cityNearest = some fg →
        FindNext fg = some (.noMoreGroups, fg))
    ∧ (∀ fg fg' : FindGroups, FindNext fg = some (.noMoreGroups, fg') →
        FindNext fg' = some (.noMoreGroups, fg')) := by
  constructor
  · intro locationTs cityNearest fg h
    rw [NewFindGroups] at h
    split at h
    · exact Option.noConfusion h
    · obtain rfl := Option.some.inj h
      rfl
  · intro fg fg' h
    rcases FindNext_noMore_inv fg fg' h with ⟨h1, h2, h3⟩
    have hloop : ingestLoop (fg'.imageTs.length - fg'.currentImagePosition) fg'
        = some fg' := by
      have hfuel : fg'.imageTs.length - fg'.currentImagePosition = 0 := by omega
      rw [hfuel]
      rfl
    rw [FindNext]
    simp only [h1, hloop, h2]
    rw [if_neg (by simp)]
    rw [if_neg (by simp)]
    rw [if_neg (by simp)]
    rw [if_neg (by omega)]

/-- A concrete nearest-city collaborator for the C10 witness (never
consulted: the image series is empty). -/
def C10cityFn : Int → Int → Option (String × String) := fun _ _ => none

/-- The engine state of the C10 witness: empty image series. -/
def C10eng : FindGroups :=
  { locationTs := [exLocA]
    imageTs := []
    unassignedRecords := []
    currentImagePosition := 0
    cityNearest := C10cityFn
    nearestCityIndex := []
    locationMatchStrategy := .bestGuess
    bufferedGroups := newIterativeGroupBuffers }

/-- C10 witness: the empty-image-series engine reports no-more-groups with
unchanged state. -/
theorem C10_no_more_groups_witness :
    FindNext C10eng = some (.noMoreGroups, C10eng) :=
  C10_no_more_groups.1 [exLocA] C10cityFn C10eng rfl

/-! ### C4: FindNext ingests the whole remaining image series -/

theorem getCurrentPositionImages_state (fg : FindGroups) (out : List CurrentImageRecord)
    (fg1 : FindGroups) (h : getCurrentPositionImages fg = some (out, fg1)) :
    fg1.imageTs = fg.imageTs ∧ fg1.currentImagePosition = fg.currentImagePosition
    ∧ fg1.bufferedGroups = fg.bufferedGroups := by
  rw [getCurrentPositionImages] at h
  split at h
  · exact Option.noConfusion h
  next imageTe hte =>
    split at h
    · exact Option.noConfusion h
    next out2 unassigned2 cityIdx2 hpi =>
      have hsnd := congrArg Prod.snd (Option.some.inj h)
      dsimp only at hsnd
      rw [← hsnd]
      exact ⟨rfl, rfl, rfl⟩

theorem ingestLoop_advances (n : Nat) : ∀ (fg fg' : FindGroups),
    ingestLoop n fg = some fg' →
    fg'.imageTs = fg.imageTs
    ∧ fg.currentImagePosition ≤ fg'.currentImagePosition
    ∧ (fg.imageTs.length ≤ fg.currentImagePosition + n →
        fg.imageTs.length ≤ fg'.currentImagePosition)
    ∧ fg'.currentImagePosition ≤ max fg.currentImagePosition fg.imageTs.length := by
  induction n with
  | zero =>
      intro fg fg' h
      rw [ingestLoop] at h
      obtain rfl := Option.some.inj h
      exact ⟨rfl, le_refl _, by omega, by omega⟩
  | succ n ih =>
      intro fg fg' h
      rw [ingestLoop] at h
      split at h
      next hlt =>
        split at h
        · exact Option.noConfusion h
        next out fg1 hcur =>
          split at h
          · exact Option.noConfusion h
          next igb2 hpush =>
            rcases getCurrentPositionImages_state fg out fg1 hcur with ⟨hts, hpos, _⟩
            rcases ih _ _ h with ⟨ih1, ih2, ih3, ih4⟩
            dsimp only at ih1 ih2 ih3 ih4
            rw [ih1, hts]
            refine ⟨rfl, by omega, ?_, ?_⟩
            · intro hlen
              have := ih3 (by rw [hts, hpos]; omega)
              rw [hts] at this
              omega
            · rw [hts, hpos] at ih4
              omega
      next hge =>
        obtain rfl := Option.some.inj h
        exact ⟨rfl, le_refl _, by omega, by omega⟩

/-- C4 (amended): a call to `FindNext` that finds no complete group already
buffered ingests ALL remaining TimeEntries of the image series - the image
cursor ends at the series length - and only afterwards pops a complete
group if one now exists (else a partial group, else no-more-groups); it
does not return upon the first TimeEntry whose ingestion completes a
group. -/
theorem C4_ingests_all_before_popping (fg : FindGroups) (r : FindNextResult)
    (fg' : FindGroups)
    (hnc : haveAnyCompleteGroups fg.bufferedGroups.groupsByCameraModel = some "")
    (hpos : fg.currentImagePosition ≤ fg.imageTs.length)
    (h : FindNext fg = some (r, fg')) :
    fg'.imageTs = fg.imageTs
    ∧ fg'.currentImagePosition = fg.imageTs.length := by
  rw [FindNext] at h
  simp only [hnc] at h
  rw [if_neg (by simp)] at h
  split at h
  · exact Option.noConfusion h
  next fg1 hingest =>
    rcases ingestLoop_advances _ _ _ hingest with ⟨h1, h2, h3, h4⟩
    have hlen : fg1.currentImagePosition = fg.imageTs.length := by
      have := h3 (by omega)
      omega
    split at h
    · exact Option.noConfusion h
    next m2 hm2 =>
      split at h
      · split at h
        · exact Option.noConfusion h
        next tk ck cm ims igb2 htup =>
          have h5 := congrArg Prod.snd (Option.some.inj h)
          dsimp only at h5
          rw [← h5]
          exact ⟨h1, hlen⟩
      · split at h
        · exact Option.noConfusion h
        next m3 hm3 =>
          split at h
          · split at h
            · exact Option.noConfusion h
            next tk ck cm ims igb2 htup =>
              have h5 := congrArg Prod.snd (Option.some.inj h)
              dsimp only at h5
              rw [← h5]
              exact ⟨h1, hlen⟩
          · split at h
            · exact Option.noConfusion h
            · have h5 := congrArg Prod.snd (Option.some.inj h)
              dsimp only at h5
              rw [← h5]
              exact ⟨h1, hlen⟩

/-- The nearest-city collaborator used by the engine examples: it maps the
three latitudes of the examples to three distinct city ids of source G. -/
def exCityFn : Int → Int → Option (String × String) := fun lat _ =>
  if lat = 1 then some ("G", "1") else if lat = 2 then some ("G", "2") else some ("G", "3")

/-- An image time entry with one record (geography already attached). -/
def exImgEntry (fp : String) (t lat : Int) : TimeEntry :=
  ⟨t, [⟨fp, t, true, lat, 0, 0, "m", []⟩]⟩

/-- The C4 engine: three TimeEntries whose cities differ, so a complete
group exists as soon as the second entry has been ingested. -/
def C4eng : FindGroups :=
  { locationTs := [exLocA]
    imageTs := [exImgEntry "a.jpg" 0 1, exImgEntry "b.jpg" 700 2, exImgEntry "c.jpg" 1400 3]
    unassignedRecords := []
    currentImagePosition := 0
    cityNearest := exCityFn
    nearestCityIndex := []
    locationMatchStrategy := .bestGuess
    bufferedGroups := newIterativeGroupBuffers }

/-- C4 counterexample: after ingesting only the first two TimeEntries a
complete group already exists for camera m, yet the first `FindNext` call
leaves the cursor at 3 - the whole series was consumed - rather than at 2
as the claim's return-as-soon-as-complete behaviour requires. -/
theorem C4_counterexample :
    (ingestLoop 2 C4eng).map (fun fg =>
        haveAnyCompleteGroups fg.bufferedGroups.groupsByCameraModel) = some (some "m")
    ∧ (FindNext C4eng).map (fun p => p.2.currentImagePosition) = some 3
    ∧ some (3 : Nat) ≠ some 2 :=
  ⟨rfl, rfl, by decide⟩

/-- The (result, state) pair produced by the first `FindNext` call of the
C4 engine. -/
def C4after : FindNextResult × FindGroups :=
  (FindNext C4eng).getD (.noMoreGroups, C4eng)

/-- C4 witness: the amended theorem applied to the concrete C4 engine. -/
theorem C4_ingests_all_before_popping_witness :
    C4after.2.imageTs = C4eng.imageTs
    ∧ C4after.2.currentImagePosition = C4eng.imageTs.length :=
  C4_ingests_all_before_popping C4eng C4after.1 C4after.2 rfl (by decide) rfl

/-! ### C5: shape of emitted groups -/

/-- The per-buffer invariant the engine maintains: the buffer of a camera
model is non-empty and every buffered image carries a record of that
camera and a non-empty nearest-city key (engine keys always contain a
comma). -/
def BufInv (cameraModel : String) (bg : BufferedGroup) : Prop :=
  bg.images ≠ [] ∧
    ∀ bi ∈ bg.images, bi.gr.cameraModel = cameraModel ∧ bi.nearestCityKey ≠ ""

/-- The pool part of the engine invariant. -/
def PoolInv (igb : IterativeGroupBuffers) : Prop :=
  ∀ p ∈ igb.groupsByCameraModel, BufInv p.1 p.2

/-- The engine invariant used for the emitted-group shape theorem. -/
def EngineInv (fg : FindGroups) : Prop :=
  PoolInv fg.bufferedGroups

theorem lookup_mem {α β : Type} [BEq α] [LawfulBEq α] {l : List (α × β)} {k : α} {v : β}
    (h : l.lookup k = some v) : (k, v) ∈ l := by
  rcases List.lookup_eq_some_iff.mp h with ⟨l₁, l₂, rfl, _⟩
  simp

theorem assocSet_mem {α β : Type} [DecidableEq α] {l : List (α × β)} {k : α} {v : β}
    {p : α × β} (h : p ∈ assocSet l k v) : p = (k, v) ∨ p ∈ l := by
  induction l with
  | nil =>
      rw [assocSet] at h
      simp at h
      exact Or.inl h
  | cons q rest ih =>
      obtain ⟨k', v'⟩ := q
      rw [assocSet] at h
      by_cases hk : k' = k
      · rw [if_pos hk] at h
        rcases List.mem_cons.mp h with h1 | h1
        · exact Or.inl h1
        · exact Or.inr (List.mem_cons_of_mem _ h1)
      · rw [if_neg hk] at h
        rcases List.mem_cons.mp h with h1 | h1
        · exact Or.inr (by simp [h1])
        · rcases ih h1 with h2 | h2
          · exact Or.inl h2
          · exact Or.inr (List.mem_cons_of_mem _ h2)

theorem assocDelete_mem {α β : Type} [DecidableEq α] {l : List (α × β)} {k : α}
    {p : α × β} (h : p ∈ assocDelete l k) : p ∈ l := by
  induction l with
  | nil =>
      rw [assocDelete] at h
      exact absurd h (List.not_mem_nil p)
  | cons q rest ih =>
      obtain ⟨k', v'⟩ := q
      rw [assocDelete] at h
      by_cases hk : k' = k
      · rw [if_pos hk] at h
        exact List.mem_cons_of_mem _ h
      · rw [if_neg hk] at h
        rcases List.mem_cons.mp h with h1 | h1
        · simp [h1]
        · exact List.mem_cons_of_mem _ (ih h1)

theorem popCompleteWalk_mem : ∀ (l : List BufferedImage) (c : String) (tk : GoTime)
    (bi : BufferedImage), bi ∈ (popCompleteWalk l c tk).2 → bi ∈ l := by
  intro l
  induction l with
  | nil =>
      intro c tk bi h
      rw [popCompleteWalk] at h
      exact absurd h (List.not_mem_nil bi)
  | cons hd tl ih =>
      intro c tk bi h
      rw [popCompleteWalk] at h
      split at h
      · exact absurd h (List.not_mem_nil bi)
      · dsimp only at h
        split at h
        · exact absurd h (List.not_mem_nil bi)
        · dsimp only at h
          rcases List.mem_cons.mp h with h1 | h1
          · simp [h1]
          · exact List.mem_cons_of_mem _ (ih _ _ _ h1)

theorem popCompleteWalk_city : ∀ (l : List BufferedImage) (c : String) (tk : GoTime),
    c ≠ "" →
    (popCompleteWalk l c tk).1 = c
    ∧ ∀ bi ∈ (popCompleteWalk l c tk).2, bi.nearestCityKey = c := by
  intro l
  induction l with
  | nil =>
      intro c tk hc
      rw [popCompleteWalk]
      exact ⟨rfl, by intro bi h; exact absurd h (List.not_mem_nil bi)⟩
  | cons hd tl ih =>
      intro c tk hc
      rw [popCompleteWalk]
      by_cases h1 : c ≠ "" ∧ hd.nearestCityKey ≠ c
      · rw [if_pos h1]
        exact ⟨rfl, by intro bi h; exact absurd h (List.not_mem_nil bi)⟩
      · rw [if_neg h1]
        have hhd : hd.nearestCityKey = c := by
          by_contra hcon
          exact h1 ⟨hc, hcon⟩
        have hcity' : (if c = "" then hd.nearestCityKey else c) = c := if_neg hc
        dsimp only
        rw [hcity']
        by_cases h2 : tk ≠ none ∧ hd.effectiveTimekey ≠ tk
        · rw [if_pos h2]
          exact ⟨rfl, by intro bi h; exact absurd h (List.not_mem_nil bi)⟩
        · rw [if_neg h2]
          dsimp only
          rcases hrec : popCompleteWalk tl c (if tk = none then hd.effectiveTimekey else tk)
            with ⟨c2, taken⟩
          rcases ih c (if tk = none then hd.effectiveTimekey else tk) hc with ⟨ihc, ihm⟩
          rw [hrec] at ihc ihm
          dsimp only at ihc ihm ⊢
          refine ⟨ihc, ?_⟩
          intro bi h
          rcases List.mem_cons.mp h with h3 | h3
          · rw [h3]; exact hhd
          · exact ihm bi h3

theorem popCompleteWalk_head (hd : BufferedImage) (tl : List BufferedImage)
    (hc : hd.nearestCityKey ≠ "") :
    (popCompleteWalk (hd :: tl) "" none).1 = hd.nearestCityKey
    ∧ (∀ bi ∈ (popCompleteWalk (hd :: tl) "" none).2,
        bi.nearestCityKey = hd.nearestCityKey)
    ∧ (popCompleteWalk (hd :: tl) "" none).2 ≠ [] := by
  rw [popCompleteWalk]
  rw [if_neg (by simp)]
  dsimp only
  rw [if_pos rfl]
  rw [if_neg (by simp)]
  rw [if_pos rfl]
  rcases hrec : popCompleteWalk tl hd.nearestCityKey hd.effectiveTimekey with ⟨c2, taken⟩
  rcases popCompleteWalk_city tl hd.nearestCityKey hd.effectiveTimekey hc with ⟨ihc, ihm⟩
  rw [hrec] at ihc ihm
  dsimp only at ihc ihm ⊢
  refine ⟨ihc, ?_, by simp⟩
  intro bi h
  rcases List.mem_cons.mp h with h3 | h3
  · rw [h3]
  · exact ihm bi h3

theorem popCompleteGroup_spec (bg : BufferedGroup) (city : String)
    (recs : List GeographicRecord) (bg' : BufferedGroup)
    (hcities : ∀ bi ∈ bg.images, bi.nearestCityKey ≠ "")
    (h : popCompleteGroup bg = some (city, recs, bg')) :
    recs ≠ []
    ∧ (∀ gr ∈ recs, ∃ bi, bi ∈ bg.images ∧ bi.gr = gr ∧ bi.nearestCityKey = city)
    ∧ ∀ bi ∈ bg'.images, bi ∈ bg.images := by
  rw [popCompleteGroup] at h
  split at h
  · exact Option.noConfusion h
  · exact Option.noConfusion h
  next hcg =>
    rcases hw : popCompleteWalk bg.images "" none with ⟨c0, taken⟩
    rw [hw] at h
    dsimp only at h
    split at h
    · exact Option.noConfusion h
    next htl =>
      split at h
      · exact Option.noConfusion h
      next li2 hupd =>
        have h2 := Option.some.inj h
        simp only [Prod.mk.injEq] at h2
        obtain ⟨rfl, rfl, rfl⟩ := h2
        have hne : bg.images ≠ [] := by
          rw [haveCompleteGroup] at hcg
          intro hcon
          rw [hcon] at hcg
          exact Option.noConfusion hcg
        rcases hbg : bg.images with _ | ⟨hd, tl⟩
        · exact absurd hbg hne
        · have hhd : hd.nearestCityKey ≠ "" := by
            apply hcities
            rw [hbg]
            simp
          rcases popCompleteWalk_head hd tl hhd with ⟨hc1, hc2, _⟩
          rw [← hbg] at hc1 hc2
          rw [hw] at hc1 hc2
          dsimp only at hc1 hc2
          refine ⟨?_, ?_, ?_⟩
          · intro hcon
            exact htl (by simpa using congrArg List.length hcon)
          · intro gr hgr
            rcases List.mem_map.mp hgr with ⟨bi, hbi, hbieq⟩
            refine ⟨bi, ?_, hbieq, ?_⟩
            · have := popCompleteWalk_mem bg.images "" none bi
              rw [hw] at this
              rw [hbg] at this
              exact this hbi
            · rw [hc1]
              exact hc2 bi hbi
          · intro bi hbi
            exact List.drop_subset _ _ hbi

theorem firstNonemptyCity_head (hd : BufferedImage) (tl : List BufferedImage)
    (hc : hd.nearestCityKey ≠ "") :
    firstNonemptyCity (hd :: tl) = hd.nearestCityKey := by
  rw [firstNonemptyCity, if_neg hc]

theorem popPartialGroup_spec (bg : BufferedGroup) (city : String)
    (recs : List GeographicRecord) (bg' : BufferedGroup)
    (h : popPartialGroup bg = some (city, recs, bg')) :
    recs = bg.images.map (fun bi => bi.gr)
    ∧ bg'.images = []
    ∧ city = firstNonemptyCity bg.images := by
  rw [popPartialGroup] at h
  split at h
  · exact Option.noConfusion h
  · exact Option.noConfusion h
  next hcg =>
    split at h
    · exact Option.noConfusion h
    · exact Option.noConfusion h
    next hpg =>
      split at h
      · exact Option.noConfusion h
      next li2 hupd =>
        have h2 := Option.some.inj h
        simp only [Prod.mk.injEq] at h2
        obtain ⟨rfl, rfl, rfl⟩ := h2
        exact ⟨rfl, rfl, rfl⟩

theorem smoothCity_gr_cameraModel (c : String) (bi : BufferedImage) :
    (smoothCity c bi).gr.cameraModel = bi.gr.cameraModel := by
  rw [smoothCity]
  split <;> rfl

theorem smoothCity_city (c : String) (bi : BufferedImage) :
    (smoothCity c bi).nearestCityKey = c
    ∨ (smoothCity c bi).nearestCityKey = bi.nearestCityKey := by
  rw [smoothCity]
  split
  · exact Or.inl rfl
  · exact Or.inr rfl

theorem bgPushImage_members (bg : BufferedGroup) (city : String) (gr : GeographicRecord)
    (bg' : BufferedGroup) (h : bgPushImage bg city gr = some bg') :
    bg'.images ≠ []
    ∧ ∀ bi2 ∈ bg'.images,
        (∃ bi, bi ∈ bg.images ∧ bi2.gr.cameraModel = bi.gr.cameraModel
           ∧ (bi2.nearestCityKey = bi.nearestCityKey ∨ bi2.nearestCityKey = city))
        ∨ (bi2.gr.cameraModel = gr.cameraModel ∧ bi2.nearestCityKey = city) := by
  rw [bgPushImage] at h
  rcases hlast : bg.images.getLast? with _ | lastBi
  · rw [hlast] at h
    exact Option.noConfusion h
  · rw [hlast] at h
    dsimp only at h
    have hnewcam : (newBufferedImage city
        (addComment gr (if lastBi.nearestCityKey = city
          then Comment.inheritedTimeKeyOfPreviousRecord
          else Comment.leftAdjacentImageDifferentCity))
        (if lastBi.nearestCityKey = city then bg.lastTimeKey else none)).gr.cameraModel
        = gr.cameraModel := by
      rw [newBufferedImage_gr]
      rfl
    rcases bgPushAppend_decomp bg city _ (newBufferedImage_nearestCityKey city _ _) bg' h
      with heq | ⟨idx, _, _, heq⟩
    · constructor
      · rw [heq]; simp
      · intro bi2 hbi2
        rw [heq] at hbi2
        rcases List.mem_append.mp hbi2 with h1 | h1
        · exact Or.inl ⟨bi2, h1, rfl, Or.inl rfl⟩
        · have hb : bi2 = _ := List.mem_singleton.mp h1
          right
          rw [hb]
          exact ⟨hnewcam, newBufferedImage_nearestCityKey city _ _⟩
    · constructor
      · rw [heq]; simp
      · intro bi2 hbi2
        rw [heq] at hbi2
        rcases List.mem_append.mp hbi2 with h1 | h1
        · rcases List.mem_append.mp h1 with h2 | h2
          · exact Or.inl ⟨bi2, List.take_subset _ _ h2, rfl, Or.inl rfl⟩
          · rcases List.mem_map.mp h2 with ⟨bi, hbi, hbieq⟩
            left
            refine ⟨bi, List.drop_subset _ _ hbi, ?_, ?_⟩
            · rw [← hbieq, smoothCity_gr_cameraModel]
            · rcases smoothCity_city city bi with hc | hc
              · right; rw [← hbieq]; exact hc
              · left; rw [← hbieq]; exact hc
        · have hb : bi2 = _ := List.mem_singleton.mp h1
          right
          rw [hb]
          exact ⟨hnewcam, newBufferedImage_nearestCityKey city _ _⟩

theorem cityKey_ne_empty (a b : String) : a ++ "," ++ b ≠ "" := by
  intro hcon
  have hlen := congrArg String.length hcon
  simp only [String.length_append] at hlen
  have h1 : ("," : String).length = 1 := rfl
  have h2 : ("" : String).length = 0 := rfl
  omega

theorem igbPushImage_inv (igb : IterativeGroupBuffers) (city : String)
    (gr : GeographicRecord) (igb' : IterativeGroupBuffers) (hcity : city ≠ "")
    (hinv : PoolInv igb) (h : igbPushImage igb city gr = some igb') : PoolInv igb' := by
  rw [igbPushImage] at h
  split at h
  next existing hlk =>
    split at h
    · exact Option.noConfusion h
    next bg2 hpush =>
      obtain rfl := Option.some.inj h
      have hold : BufInv gr.cameraModel existing := hinv _ (lookup_mem hlk)
      rcases bgPushImage_members existing city gr bg2 hpush with ⟨hne, hmem⟩
      intro p hp
      rcases assocSet_mem hp with h1 | h1
      · rw [h1]
        refine ⟨hne, ?_⟩
        intro bi2 hbi2
        rcases hmem bi2 hbi2 with ⟨bi, hbi, hcam, hck⟩ | ⟨hcam, hck⟩
        · rcases hold.2 bi hbi with ⟨hbc, hbk⟩
          refine ⟨by rw [hcam, hbc], ?_⟩
          rcases hck with hck | hck
          · rw [hck]; exact hbk
          · rw [hck]; exact hcity
        · exact ⟨hcam, by rw [hck]; exact hcity⟩
      · exact hinv _ h1
  next hlk =>
    obtain rfl := Option.some.inj h
    intro p hp
    rcases List.mem_append.mp hp with h1 | h1
    · exact hinv _ h1
    · have hp2 : p = (gr.cameraModel, initBufferedGroup city gr) := List.mem_singleton.mp h1
      rw [hp2]
      refine ⟨by rw [initBufferedGroup]; simp, ?_⟩
      intro bi hbi
      rw [initBufferedGroup] at hbi
      have hb : bi = newBufferedImage city gr none := List.mem_singleton.mp hbi
      rw [hb, newBufferedImage_gr, newBufferedImage_nearestCityKey]
      exact ⟨rfl, hcity⟩

theorem pushAll_inv : ∀ (cirs : List CurrentImageRecord) (igb igb' : IterativeGroupBuffers),
    (∀ cir ∈ cirs, cir.nearestCityKey ≠ "") → PoolInv igb →
    pushAll igb cirs = some igb' → PoolInv igb' := by
  intro cirs
  induction cirs with
  | nil =>
      intro igb igb' _ hinv h
      rw [pushAll] at h
      obtain rfl := Option.some.inj h
      exact hinv
  | cons cir rest ih =>
      intro igb igb' hkeys hinv h
      rw [pushAll] at h
      split at h
      · exact Option.noConfusion h
      next igb2 hpush =>
        have hinv2 := igbPushImage_inv igb cir.nearestCityKey cir.geographicRecord igb2
          (hkeys cir (by simp)) hinv hpush
        exact ih igb2 igb' (fun c hc => hkeys c (List.mem_cons_of_mem _ hc)) hinv2 h

theorem processItems_keys (fg : FindGroups) (t : Int) :
    ∀ (items : List GeographicRecord) (unassigned : List UnassignedRecord)
      (cityIdx : List (String × String)) (out : List CurrentImageRecord)
      (res : List CurrentImageRecord × List UnassignedRecord × List (String × String)),
    processItems fg t items unassigned cityIdx out = some res →
    (∀ cir ∈ out, cir.nearestCityKey ≠ "") →
    ∀ cir ∈ res.1, cir.nearestCityKey ≠ "" := by
  intro items
  induction items with
  | nil =>
      intro unassigned cityIdx out res h hout
      rw [processItems] at h
      obtain rfl := Option.some.inj h
      exact hout
  | cons imageGr rest ih =>
      intro unassigned cityIdx out res h hout
      rw [processItems] at h
      split at h
      · exact Option.noConfusion h
      · exact ih _ _ _ _ h hout
      next imageGr2 =>
        split at h
        · exact ih _ _ _ _ h hout
        next sourceName cityId hnear =>
          refine ih _ _ _ _ h ?_
          intro cir hcir
          rcases List.mem_append.mp hcir with h1 | h1
          · exact hout cir h1
          · have hc : cir = _ := List.mem_singleton.mp h1
            rw [hc]
            exact cityKey_ne_empty sourceName cityId

theorem getCurrentPositionImages_keys (fg : FindGroups) (out : List CurrentImageRecord)
    (fg1 : FindGroups) (h : getCurrentPositionImages fg = some (out, fg1)) :
    ∀ cir ∈ out, cir.nearestCityKey ≠ "" := by
  rw [getCurrentPositionImages] at h
  split at h
  · exact Option.noConfusion h
  next imageTe hte =>
    split at h
    · exact Option.noConfusion h
    next out2 unassigned2 cityIdx2 hpi =>
      have hfst := congrArg Prod.fst (Option.some.inj h)
      dsimp only at hfst
      rw [← hfst]
      exact processItems_keys fg imageTe.time imageTe.items fg.unassignedRecords
        fg.nearestCityIndex [] (out2, unassigned2, cityIdx2) hpi
        (by intro cir hc; exact absurd hc (List.not_mem_nil cir))

theorem ingestLoop_inv : ∀ (n : Nat) (fg fg' : FindGroups),
    EngineInv fg → ingestLoop n fg = some fg' → EngineInv fg' := by
  intro n
  induction n with
  | zero =>
      intro fg fg' hinv h
      rw [ingestLoop] at h
      obtain rfl := Option.some.inj h
      exact hinv
  | succ n ih =>
      intro fg fg' hinv h
      rw [ingestLoop] at h
      split at h
      next hlt =>
        split at h
        · exact Option.noConfusion h
        next out fg1 hcur =>
          split at h
          · exact Option.noConfusion h
          next igb2 hpush =>
            rcases getCurrentPositionImages_state fg out fg1 hcur with ⟨_, _, hbuf⟩
            have hkeys := getCurrentPositionImages_keys fg out fg1 hcur
            have hinv1 : PoolInv fg1.bufferedGroups := by
              rw [hbuf]
              exact hinv
            have hinv2 := pushAll_inv out fg1.bufferedGroups igb2 hkeys hinv1 hpush
            refine ih _ _ ?_ h
            exact hinv2
      next hge =>
        obtain rfl := Option.some.inj h
        exact hinv

theorem popFirstCompleteGroup_spec (igb : IterativeGroupBuffers) (tk : GoTime)
    (city cm : String) (recs : List GeographicRecord) (igb' : IterativeGroupBuffers)
    (hinv : PoolInv igb)
    (h : popFirstCompleteGroup igb = some (tk, city, cm, recs, igb')) :
    recs ≠ [] ∧ (∀ gr ∈ recs, gr.cameraModel = cm) ∧ PoolInv igb' := by
  rw [popFirstCompleteGroup] at h
  split at h
  · exact Option.noConfusion h
  next m hm =>
    split at h
    · exact Option.noConfusion h
    next hmne =>
      split at h
      · exact Option.noConfusion h
      next bg hlk =>
        split at h
        · exact Option.noConfusion h
        next city0 recs0 bg2 hpop =>
          have h2 := Option.some.inj h
          simp only [Prod.mk.injEq] at h2
          obtain ⟨rfl, rfl, rfl, rfl, rfl⟩ := h2
          have hold : BufInv m bg := hinv _ (lookup_mem hlk)
          rcases popCompleteGroup_spec bg city0 recs0 bg2
            (fun bi hbi => (hold.2 bi hbi).2) hpop with ⟨hne, hmem, hsub⟩
          refine ⟨hne, ?_, ?_⟩
          · intro gr hgr
            rcases hmem gr hgr with ⟨bi, hbi, hbieq, _⟩
            rw [← hbieq]
            exact (hold.2 bi hbi).1
          · intro p hp
            dsimp only at hp
            by_cases hemp : bgIsEmpty bg2
            · rw [if_pos hemp] at hp
              exact hinv _ (assocDelete_mem hp)
            · rw [if_neg hemp] at hp
              rcases assocSet_mem hp with h1 | h1
              · rw [h1]
                refine ⟨?_, ?_⟩
                · intro hcon
                  dsimp only at hcon
                  rw [bgIsEmpty] at hemp
                  simp [hcon] at hemp
                · intro bi hbi
                  exact hold.2 bi (hsub bi hbi)
              · exact hinv _ h1

theorem popFirstPartialGroup_spec (igb : IterativeGroupBuffers) (tk : GoTime)
    (city cm : String) (recs : List GeographicRecord) (igb' : IterativeGroupBuffers)
    (hinv : PoolInv igb)
    (h : popFirstPartialGroup igb = some (tk, city, cm, recs, igb')) :
    recs ≠ [] ∧ (∀ gr ∈ recs, gr.cameraModel = cm) ∧ PoolInv igb' := by
  rw [popFirstPartialGroup] at h
  split at h
  · exact Option.noConfusion h
  next m hm =>
    split at h
    · exact Option.noConfusion h
    next hme =>
      split at h
      · exact Option.noConfusion h
      next m2 hm2 =>
        split at h
        · exact Option.noConfusion h
        next hm2ne =>
          split at h
          · exact Option.noConfusion h
          next bg hlk =>
            split at h
            · exact Option.noConfusion h
            next city0 recs0 bg2 hpop =>
              split at h
              · exact Option.noConfusion h
              next hemp =>
                have h2 := Option.some.inj h
                simp only [Prod.mk.injEq] at h2
                obtain ⟨rfl, rfl, rfl, rfl, rfl⟩ := h2
                have hold : BufInv m2 bg := hinv _ (lookup_mem hlk)
                rcases popPartialGroup_spec bg city0 recs0 bg2 hpop with ⟨hrecs, _, _⟩
                refine ⟨?_, ?_, ?_⟩
                · rw [hrecs]
                  intro hcon
                  exact hold.1 (by simpa using hcon)
                · intro gr hgr
                  rw [hrecs] at hgr
                  rcases List.mem_map.mp hgr with ⟨bi, hbi, hbieq⟩
                  rw [← hbieq]
                  exact (hold.2 bi hbi).1
                · intro p hp
                  exact hinv _ (assocDelete_mem hp)

theorem groupShapeFrom (tk2 : GoTime) (ck2 cm2 : String) (ims2 : List GeographicRecord)
    (r : FindNextResult) (hr : FindNextResult.group ⟨tk2, ck2, cm2⟩ ims2 = r)
    (hne : ims2 ≠ []) (hcam : ∀ gr ∈ ims2, gr.cameraModel = cm2) :
    ∀ (gk : GroupKey) (recs : List GeographicRecord), r = .group gk recs →
      recs ≠ [] ∧ ∀ gr ∈ recs, gr.cameraModel = gk.cameraModel := by
  intro gk recs hr2
  rw [← hr] at hr2
  simp only [FindNextResult.group.injEq] at hr2
  obtain ⟨hgk, hrecs⟩ := hr2
  subst hrecs
  rw [← hgk]
  exact ⟨hne, hcam⟩

/-- C5 (amended): every group emitted by `FindNext` is non-empty and all
of its records carry the group key's camera model (given the engine
invariant, which pushes establish); a group popped as COMPLETE consists of
records whose buffered nearest-city key equals the returned city key; the
end-of-stream PARTIAL flush returns all remaining records of the elected
buffer under the first non-empty buffered city key, and its members' city
keys may differ from the group's. -/
theorem C5_emitted_group_shape :
    (∀ (bg : BufferedGroup) (city : String) (recs : List GeographicRecord)
        (bg' : BufferedGroup),
        (∀ bi ∈ bg.images, bi.nearestCityKey ≠ "") →
        popCompleteGroup bg = some (city, recs, bg') →
        recs ≠ [] ∧ ∀ gr ∈ recs, ∃ bi, bi ∈ bg.images ∧ bi.gr = gr
          ∧ bi.nearestCityKey = city)
    ∧ (∀ (bg : BufferedGroup) (city : String) (recs : List GeographicRecord)
        (bg' : BufferedGroup),
        popPartialGroup bg = some (city, recs, bg') →
        recs = bg.images.map (fun bi => bi.gr) ∧ city = firstNonemptyCity bg.images)
    ∧ (∀ (fg : FindGroups) (r : FindNextResult) (fg' : FindGroups),
        EngineInv fg → FindNext fg = some (r, fg') →
        EngineInv fg'
        ∧ ∀ (gk : GroupKey) (recs : List GeographicRecord), r = .group gk recs →
            recs ≠ [] ∧ ∀ gr ∈ recs, gr.cameraModel = gk.cameraModel) := by
  refine ⟨?_, ?_, ?_⟩
  · intro bg city recs bg' hcities h
    rcases popCompleteGroup_spec bg city recs bg' hcities h with ⟨h1, h2, _⟩
    exact ⟨h1, h2⟩
  · intro bg city recs bg' h
    rcases popPartialGroup_spec bg city recs bg' h with ⟨h1, _, h3⟩
    exact ⟨h1, h3⟩
  · intro fg r fg' hinv h
    rw [FindNext] at h
    split at h
    · exact Option.noConfusion h
    next m hm =>
      split at h
      · split at h
        · exact Option.noConfusion h
        next tk2 ck2 cm2 ims2 igb2 htup =>
          have h2 := Option.some.inj h
          have hr := congrArg Prod.fst h2
          have hs := congrArg Prod.snd h2
          dsimp only at hr hs
          rcases popFirstCompleteGroup_spec fg.bufferedGroups tk2 ck2 cm2 ims2 igb2
            hinv htup with ⟨hne, hcam, hpool⟩
          constructor
          · rw [← hs]
            exact hpool
          · exact groupShapeFrom tk2 ck2 cm2 ims2 r hr hne hcam
      · split at h
        · exact Option.noConfusion h
        next fg1 hingest =>
          have hinv1 : EngineInv fg1 := ingestLoop_inv _ _ _ hinv hingest
          split at h
          · exact Option.noConfusion h
          next m2 hm2 =>
            split at h
            · split at h
              · exact Option.noConfusion h
              next tk2 ck2 cm2 ims2 igb2 htup =>
                have h2 := Option.some.inj h
                have hr := congrArg Prod.fst h2
                have hs := congrArg Prod.snd h2
                dsimp only at hr hs
                rcases popFirstCompleteGroup_spec fg1.bufferedGroups tk2 ck2 cm2 ims2 igb2
                  hinv1 htup with ⟨hne, hcam, hpool⟩
                constructor
                · rw [← hs]
                  exact hpool
                · exact groupShapeFrom tk2 ck2 cm2 ims2 r hr hne hcam
            · split at h
              · exact Option.noConfusion h
              next m3 hm3 =>
                split at h
                · split at h
                  · exact Option.noConfusion h
                  next tk2 ck2 cm2 ims2 igb2 htup =>
                    have h2 := Option.some.inj h
                    have hr := congrArg Prod.fst h2
                    have hs := congrArg Prod.snd h2
                    dsimp only at hr hs
                    rcases popFirstPartialGroup_spec fg1.bufferedGroups tk2 ck2 cm2 ims2
                      igb2 hinv1 htup with ⟨hne, hcam, hpool⟩
                    constructor
                    · rw [← hs]
                      exact hpool
                    · exact groupShapeFrom tk2 ck2 cm2 ims2 r hr hne hcam
                · split at h
                  · exact Option.noConfusion h
                  · have h2 := Option.some.inj h
                    have hr := congrArg Prod.fst h2
                    have hs := congrArg Prod.snd h2
                    dsimp only at hr hs
                    constructor
                    · rw [← hs]
                      exact hinv1
                    · intro gk recs hr2
                      rw [← hr] at hr2
                      exact FindNextResult.noConfusion hr2

/-- The C5 engine: two images 60 s apart (same time-key 0) whose
coordinates resolve to two different cities, on one camera. -/
def C5eng : FindGroups :=
  { locationTs := [exLocA]
    imageTs := [exImgEntry "a.jpg" 0 1, exImgEntry "b.jpg" 60 2]
    unassignedRecords := []
    currentImagePosition := 0
    cityNearest := exCityFn
    nearestCityIndex := []
    locationMatchStrategy := .bestGuess
    bufferedGroups := newIterativeGroupBuffers }

/-- C5 counterexample: the end-of-stream partial flush emits one group
keyed by city G,1 that contains both records, although the second record
was buffered with nearest-city key G,2 ≠ G,1 - so not every member's
nearest-city key equals the group key's. -/
theorem C5_counterexample :
    (FindNext C5eng).map (fun p =>
        match p.1 with
        | .group gk recs => some (gk.nearestCityKey, recs.map (fun gr => gr.filepath))
        | .noMoreGroups => none) = some (some ("G,1", ["a.jpg", "b.jpg"]))
    ∧ (ingestLoop 2 C5eng).map (fun fg =>
        fg.bufferedGroups.groupsByCameraModel.map
          (fun p => p.2.images.map (fun bi => bi.nearestCityKey))) = some [["G,1", "G,2"]]
    ∧ "G,2" ≠ "G,1" :=
  ⟨rfl, rfl, by decide⟩

/-- The buffer used to witness the partial-flush conjunct of C5. -/
def C5wBg : BufferedGroup :=
  { firstTimeKey := some 600
    lastTimeKey := some 600
    images := [⟨some 600, exGr "b.jpg" 610, "Y,2"⟩, ⟨some 600, exGr "c.jpg" 620, "Y,2"⟩]
    locationIndex := [("Y,2,600", 0)] }

/-- C5 witness: the partial-flush conjunct applied to a concrete buffer. -/
theorem C5_emitted_group_shape_witness :
    [exGr "b.jpg" 610, exGr "c.jpg" 620]
      = C5wBg.images.map (fun bi => bi.gr)
    ∧ "Y,2" = firstNonemptyCity C5wBg.images :=
  C5_emitted_group_shape.2.1 C5wBg "Y,2" [exGr "b.jpg" 610, exGr "c.jpg" 620]
    ⟨none, none, [], []⟩ rfl
